import Mathlib

/-!
Verification of the cable.rs post codec (src/cable/src/post.rs) and the
handshake version exchange (src/handshake/src/lib.rs).

Bytes are modelled as natural numbers (each byte value is below 256 in every
buffer produced by the Rust code); byte buffers are lists of naturals.  Rust
`u64` values are naturals, with explicit `< 2^64` hypotheses where a theorem
needs the machine range.  Fallible Rust code returns `Except Failure`; a Rust
panic (an index out of range or a `copy_from_slice` length mismatch) is
modelled by the distinguished outcome `Failure.Panicked`, kept separate from
ordinary `Err` returns.
-/

/-- Outcomes of the fallible codec operations.  The first constructors mirror
the error kinds raised by the Rust code (`CableErrorKind` and the desert
varint errors); `Panicked` models a Rust panic, which is an abort rather than
an `Err` return. -/
inductive Failure where
  | Truncated : Failure
  | Overflow : Failure
  | MessageHashResponseEnd : Failure
  | InvalidUtf8 : Failure
  | ValidationFailed : Failure
  | DstTooSmall (required : Nat) (provided : Nat) : Failure
  | PostWriteUnrecognizedType (post_type : Nat) : Failure
  | Panicked : Failure
deriving DecidableEq, Repr

deriving instance DecidableEq for Except

/-- Modelled from the spec: the desert crate's unsigned LEB128 varint encoder
(section 4.1), which the repository uses but whose source is external.  The
minimal encoding of `n`: seven data bits per byte, low group first, high bit
set on every byte except the last. -/
def varint.encodeList (n : Nat) : List Nat :=
  if h : n < 128 then [n]
  else (n % 128 + 128) :: varint.encodeList (n / 128)
termination_by n
decreasing_by
  exact Nat.div_lt_self (by omega) (by omega)

/-- Modelled from the spec: `varint.length(value)` is the byte count of the
minimal encoding (section 4.1). -/
def varint.length (n : Nat) : Nat :=
  (varint.encodeList n).length

/-- Helper for the varint decoder: `fuel` bounds the number of bytes a single
varint may span (ten bytes suffice for any 64-bit value; an eleventh
continuation byte is an overflow). -/
def varint.decodeAux : Nat → List Nat → Except Failure (Nat × Nat)
  | _, [] => .error .Truncated
  | 0, _ :: _ => .error .Overflow
  | fuel + 1, b :: rest =>
    if b < 128 then .ok (1, b)
    else
      match varint.decodeAux fuel rest with
      | .ok (c, v) => .ok (c + 1, b % 128 + 128 * v)
      | .error e => .error e

/-- Modelled from the spec: the desert varint decoder (section 4.1), failing
with `Truncated` on premature end of input and `Overflow` when the value
would not fit in 64 bits. -/
def varint.decode (buf : List Nat) : Except Failure (Nat × Nat) :=
  varint.decodeAux 10 buf

/-- Helper telling whether a byte is a UTF-8 continuation byte (`0x80..0xBF`). -/
def utf8Cont (b : Nat) : Bool :=
  128 ≤ b && b ≤ 191

/-- Helper for the allowed second byte after a three-byte UTF-8 lead byte
(`0xE0` and `0xED` restrict it to exclude overlong forms and surrogates). -/
def utf8Lead3 (b c1 : Nat) : Bool :=
  if b = 224 then 160 ≤ c1 && c1 ≤ 191
  else if b = 237 then 128 ≤ c1 && c1 ≤ 159
  else utf8Cont c1

/-- Helper for the allowed second byte after a four-byte UTF-8 lead byte
(`0xF0` and `0xF4` restrict it to exclude overlong forms and values past
`U+10FFFF`). -/
def utf8Lead4 (b c1 : Nat) : Bool :=
  if b = 240 then 144 ≤ c1 && c1 ≤ 191
  else if b = 244 then 128 ≤ c1 && c1 ≤ 143
  else utf8Cont c1

/-- Validity of a byte sequence as UTF-8, with the exact acceptance table of
Rust's `String::from_utf8` (RFC 3629: no overlong forms, no surrogates,
nothing above `U+10FFFF`). -/
def utf8Valid : List Nat → Bool
  | [] => true
  | b :: r =>
    if b ≤ 127 then utf8Valid r
    else if b ≤ 193 then false
    else if b ≤ 223 then
      match r with
      | c1 :: r1 => utf8Cont c1 && utf8Valid r1
      | [] => false
    else if b ≤ 239 then
      match r with
      | c1 :: c2 :: r2 => utf8Lead3 b c1 && utf8Cont c2 && utf8Valid r2
      | _ => false
    else if b ≤ 244 then
      match r with
      | c1 :: c2 :: c3 :: r3 =>
        utf8Lead4 b c1 && utf8Cont c2 && utf8Cont c3 && utf8Valid r3
      | _ => false
    else false

/-- Post type tag for a text post (`constants::TEXT_POST`). -/
def TEXT_POST : Nat := 0

/-- Post type tag for a delete post (`constants::DELETE_POST`). -/
def DELETE_POST : Nat := 1

/-- Post type tag for an info post (`constants::INFO_POST`). -/
def INFO_POST : Nat := 2

/-- Post type tag for a topic post (`constants::TOPIC_POST`). -/
def TOPIC_POST : Nat := 3

/-- Post type tag for a join post (`constants::JOIN_POST`). -/
def JOIN_POST : Nat := 4

/-- Post type tag for a leave post (`constants::LEAVE_POST`). -/
def LEAVE_POST : Nat := 5

/-- The byte string `"name"`, the reserved info key subject to the user-name
validation rule. -/
def nameBytes : List Nat := [110, 97, 109, 101]

/-- Modelled from the spec: `validation::validate_channel` (section 4.2; the
validation module is not among the provided sources).  A channel name is
UTF-8 with byte length in `[1, 64]`. -/
def validate_channel (s : List Nat) : Except Failure Unit :=
  if 1 ≤ s.length ∧ s.length ≤ 64 then .ok () else .error .ValidationFailed

/-- Modelled from the spec: `validation::validate_topic` (section 4.2).  A
topic is UTF-8 with byte length in `[0, 512]`. -/
def validate_topic (s : List Nat) : Except Failure Unit :=
  if s.length ≤ 512 then .ok () else .error .ValidationFailed

/-- Modelled from the spec: `validation::validate_username` (section 4.2).  A
user-name value is UTF-8 with byte length in `[1, 32]`. -/
def validate_username (s : List Nat) : Except Failure Unit :=
  if 1 ≤ s.length ∧ s.length ≤ 32 then .ok () else .error .ValidationFailed

/-- A key-value pair of an info post (the `UserInfo` type of the cable
crate); both fields are UTF-8 strings, modelled as byte lists. -/
structure UserInfo where
  key : List Nat
  val : List Nat
deriving DecidableEq, Repr

/-- Modelled from the spec: `UserInfo::new(key, val)`, the unvalidated
constructor (free-form keys). -/
def UserInfo.new (key val : List Nat) : UserInfo :=
  ⟨key, val⟩

/-- Modelled from the spec: `UserInfo::name(val)`, which validates `val`
against the user-name rule and pairs it with the key `"name"`. -/
def UserInfo.name (val : List Nat) : Except Failure UserInfo :=
  match validate_username val with
  | .ok _ => .ok ⟨nameBytes, val⟩
  | .error e => .error e

/-- The header of a post (`PostHeader` in post.rs).  `public_key` is 32
bytes, `signature` 64 bytes, every link 32 bytes; those sizes are type
invariants in the Rust code (`[u8; 32]`, `[u8; 64]`) and appear as explicit
hypotheses in the theorems below. -/
structure PostHeader where
  public_key : List Nat
  signature : List Nat
  links : List (List Nat)
  post_type : Nat
  timestamp : Nat
deriving DecidableEq, Repr

/-- The body of a post (`PostBody` in post.rs). -/
inductive PostBody where
  | Text (channel : List Nat) (text : List Nat) : PostBody
  | Delete (hashes : List (List Nat)) : PostBody
  | Info (info : List UserInfo) : PostBody
  | Topic (channel : List Nat) (topic : List Nat) : PostBody
  | Join (channel : List Nat) : PostBody
  | Leave (channel : List Nat) : PostBody
  | Unrecognized (post_type : Nat) : PostBody
deriving DecidableEq, Repr

/-- A complete post including header and body values. -/
structure Post where
  header : PostHeader
  body : PostBody
deriving DecidableEq, Repr

/-- Whether the body is one of the six recognized variants (everything but
`Unrecognized`). -/
def PostBody.recognized : PostBody → Bool
  | .Unrecognized _ => false
  | _ => true

/-- Return the numeric type identifier for the post (`Post::post_type`):
derived from the body variant alone, never from the header field. -/
def Post.post_type (p : Post) : Nat :=
  match p.body with
  | .Text _ _ => TEXT_POST
  | .Delete _ => DELETE_POST
  | .Info _ => INFO_POST
  | .Topic _ _ => TOPIC_POST
  | .Join _ => JOIN_POST
  | .Leave _ => LEAVE_POST
  | .Unrecognized post_type => post_type

/-- Calculate the total number of bytes comprising the encoded post
(`Post::count_bytes`). -/
def Post.count_bytes (p : Post) : Nat :=
  let post_type := p.post_type
  let header_size := 32 + 64
    + varint.length p.header.links.length
    + p.header.links.length * 32
    + varint.length post_type
    + varint.length p.header.timestamp
  let body_size :=
    match p.body with
    | .Text channel text =>
      varint.length channel.length + channel.length
        + varint.length text.length + text.length
    | .Delete hashes => varint.length hashes.length + hashes.length * 32
    | .Info info =>
      (info.foldl (fun sum i =>
        sum + varint.length i.key.length + i.key.length
          + varint.length i.val.length + i.val.length) 0)
        + varint.length 0
    | .Topic channel topic =>
      varint.length channel.length + channel.length
        + varint.length topic.length + topic.length
    | .Join channel => varint.length channel.length + channel.length
    | .Leave channel => varint.length channel.length + channel.length
    | .Unrecognized _ => 0
  header_size + body_size

/-- Model of `buf[start..stop].copy_from_slice(data)` on a mutable Rust byte
slice: out-of-range slice bounds or a length mismatch between the slice and
`data` are Rust panics; otherwise the bytes `start..stop` of `buf` are
replaced by `data`. -/
def copy_from_slice (buf : List Nat) (start stop : Nat) (data : List Nat) :
    Except Failure (List Nat) :=
  if start ≤ stop ∧ stop ≤ buf.length ∧ stop - start = data.length then
    .ok (buf.take start ++ data ++ buf.drop stop)
  else .error .Panicked

/-- Modelled from the spec: `varint::encode(value, &mut buf[offset..])` from
the desert crate (section 4.1): write the minimal encoding of `value` at
`offset`, returning the number of bytes written, or fail with `DstTooSmall`
when the destination slice cannot hold it. -/
def varint.encode (n : Nat) (buf : List Nat) (offset : Nat) :
    Except Failure (Nat × List Nat) :=
  let e := varint.encodeList n
  if buf.length < offset + e.length then
    .error (.DstTooSmall (offset + e.length) buf.length)
  else .ok (e.length, buf.take offset ++ e ++ buf.drop (offset + e.length))

/-- The links-writing loop of `Post::write_bytes` (also the hashes loop of
the `Delete` arm, which is byte-for-byte the same code): each entry is first
guarded by an explicit `DstTooSmall` check, then copied at the running
offset. -/
def write_links : List (List Nat) → List Nat → Nat →
    Except Failure (Nat × List Nat)
  | [], buf, offset => .ok (offset, buf)
  | link :: rest, buf, offset =>
    if buf.length < offset + link.length then
      .error (.DstTooSmall (offset + link.length) buf.length)
    else
      match copy_from_slice buf offset (offset + link.length) link with
      | .error e => .error e
      | .ok buf2 => write_links rest buf2 (offset + link.length)

/-- The key-value loop of the `Info` arm of `Post::write_bytes`: for every
entry, the varint key length, the key bytes, the varint value length and the
value bytes, in that order. -/
def write_info : List UserInfo → List Nat → Nat →
    Except Failure (Nat × List Nat)
  | [], buf, offset => .ok (offset, buf)
  | i :: rest, buf, offset =>
    match varint.encode i.key.length buf offset with
    | .error e => .error e
    | .ok (s, buf1) =>
      match copy_from_slice buf1 (offset + s) (offset + s + i.key.length)
          i.key with
      | .error e => .error e
      | .ok buf2 =>
        match varint.encode i.val.length buf2 (offset + s + i.key.length) with
        | .error e => .error e
        | .ok (s2, buf3) =>
          match copy_from_slice buf3 (offset + s + i.key.length + s2)
              (offset + s + i.key.length + s2 + i.val.length) i.val with
          | .error e => .error e
          | .ok buf4 =>
            write_info rest buf4 (offset + s + i.key.length + s2 + i.val.length)

/-- The header section of `Post::write_bytes` (the statements under the
`POST HEADER BYTES` comment): public key, signature, varint link count, link
hashes, varint post type (taken from `Post::post_type`, hence the `t`
argument), varint timestamp. -/
def write_header (h : PostHeader) (t : Nat) (buf : List Nat) :
    Except Failure (Nat × List Nat) :=
  match copy_from_slice buf 0 (0 + 32) h.public_key with
  | .error e => .error e
  | .ok buf1 =>
    match copy_from_slice buf1 h.public_key.length
        (h.public_key.length + 64) h.signature with
    | .error e => .error e
    | .ok buf2 =>
      let o2 := h.public_key.length + h.signature.length
      match varint.encode h.links.length buf2 o2 with
      | .error e => .error e
      | .ok (s, buf3) =>
        match write_links h.links buf3 (o2 + s) with
        | .error e => .error e
        | .ok (o3, buf4) =>
          match varint.encode t buf4 o3 with
          | .error e => .error e
          | .ok (s2, buf5) =>
            match varint.encode h.timestamp buf5 (o3 + s2) with
            | .error e => .error e
            | .ok (s3, buf6) => .ok (o3 + s2 + s3, buf6)

/-- The body section of `Post::write_bytes` (the `match &self.body` under the
`POST BODY BYTES` comment). -/
def write_body : PostBody → List Nat → Nat → Except Failure (Nat × List Nat)
  | .Text channel text, buf, offset =>
    (match varint.encode channel.length buf offset with
    | .error e => .error e
    | .ok (s, buf1) =>
      match copy_from_slice buf1 (offset + s) (offset + s + channel.length)
          channel with
      | .error e => .error e
      | .ok buf2 =>
        match varint.encode text.length buf2 (offset + s + channel.length) with
        | .error e => .error e
        | .ok (s2, buf3) =>
          match copy_from_slice buf3 (offset + s + channel.length + s2)
              (offset + s + channel.length + s2 + text.length) text with
          | .error e => .error e
          | .ok buf4 => .ok (offset + s + channel.length + s2 + text.length, buf4))
  | .Delete hashes, buf, offset =>
    (match varint.encode hashes.length buf offset with
    | .error e => .error e
    | .ok (s, buf1) => write_links hashes buf1 (offset + s))
  | .Info info, buf, offset =>
    (match write_info info buf offset with
    | .error e => .error e
    | .ok (o2, buf1) =>
      match varint.encode 0 buf1 o2 with
      | .error e => .error e
      | .ok (s, buf2) => .ok (o2 + s, buf2))
  | .Topic channel topic, buf, offset =>
    (match varint.encode channel.length buf offset with
    | .error e => .error e
    | .ok (s, buf1) =>
      match copy_from_slice buf1 (offset + s) (offset + s + channel.length)
          channel with
      | .error e => .error e
      | .ok buf2 =>
        match varint.encode topic.length buf2 (offset + s + channel.length) with
        | .error e => .error e
        | .ok (s2, buf3) =>
          match copy_from_slice buf3 (offset + s + channel.length + s2)
              (offset + s + channel.length + s2 + topic.length) topic with
          | .error e => .error e
          | .ok buf4 => .ok (offset + s + channel.length + s2 + topic.length, buf4))
  | .Join channel, buf, offset =>
    (match varint.encode channel.length buf offset with
    | .error e => .error e
    | .ok (s, buf1) =>
      match copy_from_slice buf1 (offset + s) (offset + s + channel.length)
          channel with
      | .error e => .error e
      | .ok buf2 => .ok (offset + s + channel.length, buf2))
  | .Leave channel, buf, offset =>
    (match varint.encode channel.length buf offset with
    | .error e => .error e
    | .ok (s, buf1) =>
      match copy_from_slice buf1 (offset + s) (offset + s + channel.length)
          channel with
      | .error e => .error e
      | .ok buf2 => .ok (offset + s + channel.length, buf2))
  | .Unrecognized post_type, _, _ =>
    .error (.PostWriteUnrecognizedType post_type)

/-- Write a post into the given buffer (`Post::write_bytes`), returning the
number of bytes written together with the updated buffer contents. -/
def Post.write_bytes (p : Post) (buf : List Nat) :
    Except Failure (Nat × List Nat) :=
  match write_header p.header p.post_type buf with
  | .error e => .error e
  | .ok (offset, buf1) => write_body p.body buf1 offset

/-- Convert a `Post` to bytes (`Post::to_bytes`): allocate a zeroed vector of
`count_bytes` bytes, run `write_bytes` into it and return the whole buffer. -/
def Post.to_bytes (p : Post) : Except Failure (List Nat) :=
  match p.write_bytes (List.replicate p.count_bytes 0) with
  | .error e => .error e
  | .ok (_, buf) => .ok buf

/-- The serialized form of one info key-value pair. -/
def enc_entry (i : UserInfo) : List Nat :=
  varint.encodeList i.key.length ++ i.key
    ++ varint.encodeList i.val.length ++ i.val

/-- The serialized form of an info entry list (without the terminating zero
sentinel). -/
def enc_info (info : List UserInfo) : List Nat :=
  (info.map enc_entry).flatten

/-- The serialized form of a post header carrying wire tag `t`. -/
def enc_header (h : PostHeader) (t : Nat) : List Nat :=
  h.public_key ++ h.signature
    ++ varint.encodeList h.links.length ++ h.links.flatten
    ++ varint.encodeList t ++ varint.encodeList h.timestamp

/-- The serialized form of a post body. -/
def enc_body : PostBody → List Nat
  | .Text channel text =>
    varint.encodeList channel.length ++ channel
      ++ varint.encodeList text.length ++ text
  | .Delete hashes => varint.encodeList hashes.length ++ hashes.flatten
  | .Info info => enc_info info ++ varint.encodeList 0
  | .Topic channel topic =>
    varint.encodeList channel.length ++ channel
      ++ varint.encodeList topic.length ++ topic
  | .Join channel => varint.encodeList channel.length ++ channel
  | .Leave channel => varint.encodeList channel.length ++ channel
  | .Unrecognized _ => []

/-- The full serialized form of a post. -/
def enc_post (p : Post) : List Nat :=
  enc_header p.header p.post_type ++ enc_body p.body

/-- Representation invariants the Rust types guarantee: 32-byte public key,
64-byte signature, 32-byte link and delete hashes. -/
def Post.repr_ok (p : Post) : Bool :=
  p.header.public_key.length = 32 && p.header.signature.length = 64
    && p.header.links.all (fun l => l.length = 32)
    && (match p.body with
        | .Delete hashes => hashes.all (fun l => l.length = 32)
        | _ => true)

/-- Range invariants the Rust types guarantee: every count or length that the
codec passes through a `u64` varint fits in 64 bits. -/
def Post.counts_ok (p : Post) : Bool :=
  p.header.links.length < 2 ^ 64 && p.post_type < 2 ^ 64
    && p.header.timestamp < 2 ^ 64
    && (match p.body with
        | .Text channel text =>
          channel.length < 2 ^ 64 && text.length < 2 ^ 64
        | .Delete hashes => hashes.length < 2 ^ 64
        | .Info info =>
          info.all (fun i => i.key.length < 2 ^ 64 && i.val.length < 2 ^ 64)
        | .Topic channel topic =>
          channel.length < 2 ^ 64 && topic.length < 2 ^ 64
        | .Join channel => channel.length < 2 ^ 64
        | .Leave channel => channel.length < 2 ^ 64
        | .Unrecognized _ => true)

/-- String invariants the Rust `String` type guarantees: every text field of
the body is valid UTF-8. -/
def Post.strings_utf8 (p : Post) : Bool :=
  match p.body with
  | .Text channel text => utf8Valid channel && utf8Valid text
  | .Delete _ => true
  | .Info info => info.all (fun i => utf8Valid i.key && utf8Valid i.val)
  | .Topic channel topic => utf8Valid channel && utf8Valid topic
  | .Join channel => utf8Valid channel
  | .Leave channel => utf8Valid channel
  | .Unrecognized _ => true

/-- The validation rules of spec section 3: channel names have 1 to 64 bytes,
topics at most 512 bytes, and the value of any info entry keyed `"name"` has
1 to 32 bytes. -/
def Post.valid_ok (p : Post) : Bool :=
  match p.body with
  | .Text channel _ => 1 ≤ channel.length && channel.length ≤ 64
  | .Delete _ => true
  | .Info info =>
    info.all (fun i =>
      if i.key = nameBytes then 1 ≤ i.val.length && i.val.length ≤ 32
      else true)
  | .Topic channel topic =>
    (1 ≤ channel.length && channel.length ≤ 64) && topic.length ≤ 512
  | .Join channel => 1 ≤ channel.length && channel.length ≤ 64
  | .Leave channel => 1 ≤ channel.length && channel.length ≤ 64
  | .Unrecognized _ => true

/-- Whether every info entry key is non-empty (no body restricts this in the
validation rules; it is the extra condition the round-trip needs). -/
def Post.info_keys_nonempty (p : Post) : Bool :=
  match p.body with
  | .Info info => info.all (fun i => !i.key.isEmpty)
  | _ => true

/-- Model of reading `&buf[offset..offset + n]` into a fixed-size array (the
public key, signature and link reads of `Post::from_bytes`), applied to the
suffix `buf.drop offset`: a Rust panic when the range exceeds the buffer. -/
def take_exact (buf : List Nat) (n : Nat) : Except Failure (List Nat) :=
  if n ≤ buf.length then .ok (buf.take n) else .error .Panicked

/-- Model of `String::from_utf8(buf[offset..offset + n].to_vec())?` applied
to the suffix `buf.drop offset`: the slice panics when the range exceeds the
buffer, then UTF-8 decoding fails with `InvalidUtf8`. -/
def take_string (buf : List Nat) (n : Nat) : Except Failure (List Nat) :=
  if n ≤ buf.length then
    if utf8Valid (buf.take n) then .ok (buf.take n)
    else .error .InvalidUtf8
  else .error .Panicked

/-- The hash-reading loop of `Post::from_bytes` (used for both the header
links and the `Delete` body hashes, which are byte-for-byte the same code):
read `n` 32-byte entries from the given suffix, guarding each with the
explicit `MessageHashResponseEnd` truncation check, and return the number of
bytes consumed together with the entries. -/
def decode_links : Nat → List Nat → Except Failure (Nat × List (List Nat))
  | 0, _ => .ok (0, [])
  | n + 1, buf =>
    if buf.length < 32 then .error .MessageHashResponseEnd
    else
      match decode_links n (buf.drop 32) with
      | .error e => .error e
      | .ok (c, links) => .ok (c + 32, buf.take 32 :: links)

/-- The header section of `Post::from_bytes` (the statements under the
`POST HEADER BYTES` comment): 32-byte public key, 64-byte signature, varint
link count, the links, varint post type, varint timestamp; returns the byte
count consumed and the header. -/
def decode_header (buf : List Nat) : Except Failure (Nat × PostHeader) :=
  match take_exact buf 32 with
  | .error e => .error e
  | .ok public_key =>
    match take_exact (buf.drop 32) 64 with
    | .error e => .error e
    | .ok signature =>
      match varint.decode (buf.drop 96) with
      | .error e => .error e
      | .ok (s1, num_links) =>
        match decode_links num_links (buf.drop (96 + s1)) with
        | .error e => .error e
        | .ok (c, links) =>
          match varint.decode (buf.drop (96 + s1 + c)) with
          | .error e => .error e
          | .ok (s2, post_type) =>
            match varint.decode (buf.drop (96 + s1 + c + s2)) with
            | .error e => .error e
            | .ok (s3, timestamp) =>
              .ok (96 + s1 + c + s2 + s3,
                ⟨public_key, signature, links, post_type, timestamp⟩)

/-- The key-value loop of the `INFO_POST` arm of `Post::from_bytes`: read
`(key_len, key, val_len, val)` tuples until a `key_len` of zero; a key equal
to `"name"` goes through `UserInfo::name` (which validates the value).  The
`fuel` argument only bounds the iteration count for termination: every
iteration consumes at least one byte, so a fuel exceeding the buffer length
is never exhausted. -/
def decode_info : Nat → List Nat → Except Failure (Nat × List UserInfo)
  | 0, _ => .error .Panicked
  | fuel + 1, buf =>
    match varint.decode buf with
    | .error e => .error e
    | .ok (s, key_len) =>
      if key_len = 0 then .ok (s, [])
      else
        match take_string (buf.drop s) key_len with
        | .error e => .error e
        | .ok key =>
          match varint.decode (buf.drop (s + key_len)) with
          | .error e => .error e
          | .ok (s2, val_len) =>
            match take_string (buf.drop (s + key_len + s2)) val_len with
            | .error e => .error e
            | .ok val =>
              match (if key = nameBytes then UserInfo.name val
                  else .ok (UserInfo.new key val)) with
              | .error e => .error e
              | .ok entry =>
                match decode_info fuel
                    (buf.drop (s + key_len + s2 + val_len)) with
                | .error e => .error e
                | .ok (c, info) =>
                  .ok (s + key_len + s2 + val_len + c, entry :: info)

/-- Read a post from the given buffer (`Post::from_bytes`), returning the
total number of bytes consumed and the decoded post.  The body section
dispatches on the decoded tag against the `TEXT_POST` .. `LEAVE_POST`
constants (the arms of the Rust `match post_type`); any other tag yields
`Unrecognized` without reading body bytes. -/
def Post.from_bytes (buf : List Nat) : Except Failure (Nat × Post) :=
  match decode_header buf with
  | .error e => .error e
  | .ok (n, header) =>
    if header.post_type = TEXT_POST then
      match varint.decode (buf.drop n) with
      | .error e => .error e
      | .ok (s, channel_len) =>
        match take_string (buf.drop (n + s)) channel_len with
        | .error e => .error e
        | .ok channel =>
          match validate_channel channel with
          | .error e => .error e
          | .ok _ =>
            match varint.decode (buf.drop (n + s + channel_len)) with
            | .error e => .error e
            | .ok (s2, text_len) =>
              match take_string (buf.drop (n + s + channel_len + s2))
                  text_len with
              | .error e => .error e
              | .ok text =>
                .ok (n + s + channel_len + s2 + text_len,
                  ⟨header, .Text channel text⟩)
    else if header.post_type = DELETE_POST then
      match varint.decode (buf.drop n) with
      | .error e => .error e
      | .ok (s, num_hashes) =>
        match decode_links num_hashes (buf.drop (n + s)) with
        | .error e => .error e
        | .ok (c, hashes) => .ok (n + s + c, ⟨header, .Delete hashes⟩)
    else if header.post_type = INFO_POST then
      match decode_info ((buf.drop n).length + 1) (buf.drop n) with
      | .error e => .error e
      | .ok (c, info) => .ok (n + c, ⟨header, .Info info⟩)
    else if header.post_type = TOPIC_POST then
      match varint.decode (buf.drop n) with
      | .error e => .error e
      | .ok (s, channel_len) =>
        match take_string (buf.drop (n + s)) channel_len with
        | .error e => .error e
        | .ok channel =>
          match validate_channel channel with
          | .error e => .error e
          | .ok _ =>
            match varint.decode (buf.drop (n + s + channel_len)) with
            | .error e => .error e
            | .ok (s2, topic_len) =>
              match take_string (buf.drop (n + s + channel_len + s2))
                  topic_len with
              | .error e => .error e
              | .ok topic =>
                match validate_topic topic with
                | .error e => .error e
                | .ok _ =>
                  .ok (n + s + channel_len + s2 + topic_len,
                    ⟨header, .Topic channel topic⟩)
    else if header.post_type = JOIN_POST then
      match varint.decode (buf.drop n) with
      | .error e => .error e
      | .ok (s, channel_len) =>
        match take_string (buf.drop (n + s)) channel_len with
        | .error e => .error e
        | .ok channel =>
          match validate_channel channel with
          | .error e => .error e
          | .ok _ => .ok (n + s + channel_len, ⟨header, .Join channel⟩)
    else if header.post_type = LEAVE_POST then
      match varint.decode (buf.drop n) with
      | .error e => .error e
      | .ok (s, channel_len) =>
        match take_string (buf.drop (n + s)) channel_len with
        | .error e => .error e
        | .ok channel =>
          match validate_channel channel with
          | .error e => .error e
          | .ok _ => .ok (n + s + channel_len, ⟨header, .Leave channel⟩)
    else .ok (n, ⟨header, .Unrecognized header.post_type⟩)

/-- Verify the signature of an encoded post (`Post::verify`).  The three
cryptographic primitives come from the external sodiumoxide crate and are
taken as parameters: `pk_from_slice` models `PublicKey::from_slice`,
`sig_from_bytes` models `Signature::from_bytes` (its `Result` collapsed to an
option, which is all the `match` observes), and `verify_detached` models
`sign::verify_detached`. -/
def Post.verify {PK Sig : Type} (pk_from_slice : List Nat → Option PK)
    (sig_from_bytes : List Nat → Option Sig)
    (verify_detached : Sig → List Nat → PK → Bool)
    (buf : List Nat) : Bool :=
  if buf.length < 32 + 64 then false
  else
    match pk_from_slice (buf.take 32),
        sig_from_bytes ((buf.drop 32).take 64) with
    | some pk, some sig => verify_detached sig (buf.drop (32 + 64)) pk
    | _, _ => false

/-- Outcomes of the fallible handshake operations (the handshake crate boxes
its errors; these are the kinds the version exchange can produce).
`Truncated` is the codec truncation kind named by the specification;
`Panicked` models a Rust panic (an out-of-range index), which is an abort
rather than an `Err` return. -/
inductive HsFailure where
  | IncompatibleServerVersion : HsFailure
  | Truncated : HsFailure
  | Panicked : HsFailure
deriving DecidableEq, Repr

/-- Major and minor identifiers for a version of the handshake protocol
(`Version` in handshake/src/lib.rs); both fields are `u8`. -/
structure Version where
  major : Nat
  minor : Nat
deriving DecidableEq, Repr

/-- Initialise a new version instance (`Version::init`). -/
def Version.init (major minor : Nat) : Version :=
  ⟨major, minor⟩

/-- Read a version from the given buffer (`Version::from_bytes`): the major
from byte 0 and the minor from byte 1.  The Rust implementation indexes
`buf[0]` and `buf[1]` with no length check, so a buffer of fewer than two
bytes is an index-out-of-range panic, not an `Err` return. -/
def Version.from_bytes (buf : List Nat) :
    Except HsFailure (Nat × Version) :=
  if 2 ≤ buf.length then .ok (2, ⟨buf.getD 0 0, buf.getD 1 0⟩)
  else .error .Panicked

/-- The stages of the version-exchange portion of the handshake typestate
(the further Noise stages carry external `snow` state and are outside the
modelled surface). -/
inductive HsState where
  | ClientSendVersion : HsState
  | ClientRecvVersion : HsState
  | ClientBuildNoiseStateMachine : HsState
  | ServerRecvVersion : HsState
  | ServerSendVersion : HsState
  | ServerBuildNoiseStateMachine : HsState
deriving DecidableEq, Repr

/-- The initialization data present in every state of the handshake
(`HandshakeBase`). -/
structure HandshakeBase where
  version : Version
  psk : List Nat
  private_key : List Nat
deriving DecidableEq, Repr

/-- A handshake value: the base data plus the current typestate, modelled as
a state tag (the Rust code encodes the state in the type parameter of
`Handshake<S>`; each transition consumes the value and returns the next
state). -/
structure Handshake where
  base : HandshakeBase
  state : HsState
deriving DecidableEq, Repr

/-- Create a new handshake client that can send the version data
(`Handshake::new_client`). -/
def Handshake.new_client (version : Version) (psk private_key : List Nat) :
    Handshake :=
  ⟨⟨version, psk, private_key⟩, .ClientSendVersion⟩

/-- Create a new handshake server that can receive the version data
(`Handshake::new_server`). -/
def Handshake.new_server (version : Version) (psk private_key : List Nat) :
    Handshake :=
  ⟨⟨version, psk, private_key⟩, .ServerRecvVersion⟩

/-- Receive the version data from the server
(`Handshake::<ClientRecvVersion>::recv_server_version`): terminate the
handshake with `IncompatibleServerVersion` if the received major version
differs from the local one, otherwise advance to
`ClientBuildNoiseStateMachine`. -/
def Handshake.recv_server_version (hs : Handshake) (recv_buf : List Nat) :
    Except HsFailure Handshake :=
  match Version.from_bytes recv_buf with
  | .error e => .error e
  | .ok (_n, server_version) =>
    if server_version.major ≠ hs.base.version.major then
      .error .IncompatibleServerVersion
    else .ok ⟨hs.base, .ClientBuildNoiseStateMachine⟩

/-- Receive the version data from the client
(`Handshake::<ServerRecvVersion>::recv_client_version`): a major-version
mismatch is only logged (the Rust arm holds nothing but a `warn!`), never
returned as an error; the server always advances to `ServerSendVersion` so
it can still send its own version. -/
def Handshake.recv_client_version (hs : Handshake) (recv_buf : List Nat) :
    Except HsFailure Handshake :=
  match Version.from_bytes recv_buf with
  | .error e => .error e
  | .ok (_n, _client_version) => .ok ⟨hs.base, .ServerSendVersion⟩

/-- A small fully concrete post used to instantiate theorems with
hypotheses: a join post with one link and channel `"a"`. -/
def sample_post : Post :=
  ⟨⟨List.replicate 32 0, List.replicate 64 1, [List.replicate 32 2],
    JOIN_POST, 80⟩, .Join [97]⟩

/-- The Info post with the single entry whose key is empty: it meets every
hypothesis of the original claim, but its encoding starts the body with a
zero key length, which the decoder reads as the end-of-list sentinel. -/
def c1cex_post : Post :=
  ⟨⟨List.replicate 32 0, List.replicate 64 0, [], INFO_POST, 0⟩,
    .Info [⟨[], [120]⟩]⟩

/-- The serialization of `c1cex_post`: 96 zero bytes of key and signature,
zero links, tag 2, timestamp 0, then the body `[0, 1, 120, 0]`. -/
def c1cex_bytes : List Nat :=
  List.replicate 96 0 ++ [0, 2, 0, 0, 1, 120, 0]

/-- An unrecognized post with tag 7, used to instantiate the C5 theorem. -/
def unrec_post : Post :=
  ⟨⟨List.replicate 32 0, List.replicate 64 0, [], 7, 80⟩, .Unrecognized 7⟩

/-- The handshake client sitting in the state that receives the server
version, with local version 1.0. -/
def client_recv : Handshake :=
  ⟨⟨⟨1, 0⟩, [], []⟩, .ClientRecvVersion⟩

/-- The handshake server sitting in the state that receives the client
version, with local version 1.0. -/
def server_recv : Handshake :=
  ⟨⟨⟨1, 0⟩, [], []⟩, .ServerRecvVersion⟩

theorem varint.encodeList_ne_nil (n : Nat) : varint.encodeList n ≠ [] := by
  rw [varint.encodeList]
  split <;> simp

theorem varint.length_pos (n : Nat) : 1 ≤ varint.length n := by
  have h := varint.encodeList_ne_nil n
  unfold varint.length
  cases he : varint.encodeList n with
  | nil => exact absurd he h
  | cons a l => simp

theorem varint.encodeList_length_le (k n : Nat) (h : n < 128 ^ (k + 1)) :
    (varint.encodeList n).length ≤ k + 1 := by
  induction k generalizing n with
  | zero =>
    rw [varint.encodeList]
    have : n < 128 := by simpa using h
    simp [this]
  | succ k ih =>
    rw [varint.encodeList]
    split
    · simp
    · have hdiv : n / 128 < 128 ^ (k + 1) := by
        rw [Nat.div_lt_iff_lt_mul (by omega)]
        calc n < 128 ^ (k + 1 + 1) := h
        _ = 128 ^ (k + 1) * 128 := by ring
      have := ih (n / 128) hdiv
      simpa using Nat.add_le_add_right this 1

theorem varint.length_le_ten (n : Nat) (h : n < 2 ^ 64) :
    varint.length n ≤ 10 := by
  have h10 : n < 128 ^ 10 := by
    calc n < 2 ^ 64 := h
    _ ≤ 128 ^ 10 := by norm_num
  exact varint.encodeList_length_le 9 n h10

theorem varint.decodeAux_encodeList (n : Nat) :
    ∀ (fuel : Nat) (r : List Nat), (varint.encodeList n).length ≤ fuel →
    varint.decodeAux fuel (varint.encodeList n ++ r) =
      .ok ((varint.encodeList n).length, n) := by
  induction n using Nat.strong_induction_on with
  | _ n ih =>
    intro fuel r hfuel
    by_cases h : n < 128
    · rw [varint.encodeList] at hfuel ⊢
      simp only [h, dite_true] at hfuel ⊢
      obtain ⟨f, rfl⟩ : ∃ f, fuel = f + 1 := by
        cases fuel with
        | zero => simp at hfuel
        | succ f => exact ⟨f, rfl⟩
      simp [varint.decodeAux, h]
    · rw [varint.encodeList] at hfuel ⊢
      simp only [h, dite_false] at hfuel ⊢
      obtain ⟨f, rfl⟩ : ∃ f, fuel = f + 1 := by
        cases fuel with
        | zero => simp at hfuel
        | succ f => exact ⟨f, rfl⟩
      have hlt : n / 128 < n := Nat.div_lt_self (by omega) (by omega)
      have hrec := ih (n / 128) hlt f r (by simpa using hfuel)
      have hb : ¬ (n % 128 + 128 < 128) := by omega
      have hmod : (n % 128 + 128) % 128 = n % 128 := by omega
      have hval : n % 128 + 128 * (n / 128) = n := Nat.mod_add_div n 128
      simp only [varint.decodeAux, List.cons_append, hb, if_false,
        List.append_eq]
      rw [hrec]
      simp [hmod, hval]

theorem varint.decode_encodeList (n : Nat) (r : List Nat) (h : n < 2 ^ 64) :
    varint.decode (varint.encodeList n ++ r) = .ok (varint.length n, n) := by
  unfold varint.decode varint.length
  exact varint.decodeAux_encodeList n 10 r (varint.length_le_ten n h)

theorem drop_append_plus (w r : List Nat) (k : Nat) :
    (w ++ r).drop (w.length + k) = r.drop k := by
  induction w with
  | nil => simp
  | cons a w ih =>
    simp only [List.cons_append, List.length_cons]
    rw [show w.length + 1 + k = (w.length + k) + 1 by omega]
    rw [List.drop_succ_cons]
    exact ih

theorem copy_from_slice_prefix (buf data : List Nat) (k : Nat)
    (hk : data.length = k) (h : k ≤ buf.length) :
    copy_from_slice buf 0 (0 + k) data = .ok (data ++ buf.drop k) := by
  unfold copy_from_slice
  rw [if_pos (by omega)]
  simp

theorem copy_from_slice_at (w rest data : List Nat) (k : Nat)
    (hk : data.length = k) (h : k ≤ rest.length) :
    copy_from_slice (w ++ rest) w.length (w.length + k) data =
      .ok (w ++ (data ++ rest.drop k)) := by
  unfold copy_from_slice
  rw [if_pos (by simp; omega)]
  rw [List.take_left, drop_append_plus]
  simp

theorem varint.encode_at (n : Nat) (w rest : List Nat)
    (h : varint.length n ≤ rest.length) :
    varint.encode n (w ++ rest) w.length =
      .ok (varint.length n,
        w ++ (varint.encodeList n ++ rest.drop (varint.length n))) := by
  unfold varint.encode varint.length at *
  rw [if_neg (by simp; omega)]
  rw [List.take_left, drop_append_plus]
  simp

theorem write_links_at (ls : List (List Nat)) :
    ∀ (w rest : List Nat), (∀ l ∈ ls, l.length = 32) →
    32 * ls.length ≤ rest.length →
    write_links ls (w ++ rest) w.length =
      .ok (w.length + 32 * ls.length,
        w ++ (ls.flatten ++ rest.drop (32 * ls.length))) := by
  induction ls with
  | nil => intro w rest _ _; simp [write_links]
  | cons l ls ih =>
    intro w rest hall hlen
    have hl : l.length = 32 := hall l (by simp)
    have hlen' : 32 + 32 * ls.length ≤ rest.length := by
      simp only [List.length_cons, Nat.mul_succ] at hlen
      omega
    have hrest : 32 ≤ rest.length := by omega
    have hcopy : copy_from_slice (w ++ rest) w.length (w.length + l.length) l
        = .ok (w ++ (l ++ rest.drop 32)) := by
      rw [hl]
      exact copy_from_slice_at w rest l 32 hl hrest
    rw [write_links]
    rw [if_neg (by simp [hl]; omega)]
    simp only [hcopy]
    rw [show w.length + l.length = (w ++ l).length by simp]
    rw [← List.append_assoc]
    rw [ih (w ++ l) (rest.drop 32) (fun x hx => hall x (by simp [hx]))
      (by simp; omega)]
    simp only [Except.ok.injEq, Prod.mk.injEq]
    constructor
    · simp [hl, List.length_cons, Nat.mul_succ]
      omega
    · rw [List.drop_drop]
      rw [show 32 + 32 * ls.length = 32 * (l :: ls).length by
        simp [List.length_cons, Nat.mul_succ]; omega]
      simp [List.append_assoc]

theorem enc_info_cons (i : UserInfo) (info : List UserInfo) :
    enc_info (i :: info) = enc_entry i ++ enc_info info := by
  simp [enc_info]

theorem enc_entry_length (i : UserInfo) :
    (enc_entry i).length = (varint.encodeList i.key.length).length
      + i.key.length + (varint.encodeList i.val.length).length
      + i.val.length := by
  simp only [enc_entry, List.length_append]

theorem write_info_at (info : List UserInfo) :
    ∀ (w rest : List Nat), (enc_info info).length ≤ rest.length →
    write_info info (w ++ rest) w.length =
      .ok (w.length + (enc_info info).length,
        w ++ (enc_info info ++ rest.drop (enc_info info).length)) := by
  induction info with
  | nil => intro w rest _; simp [write_info, enc_info]
  | cons i is ih =>
    intro w rest hlen
    rw [enc_info_cons] at hlen
    have hE := enc_entry_length i
    have hlen' : (enc_entry i).length + (enc_info is).length ≤ rest.length := by
      simpa using hlen
    rw [write_info]
    have h1 := varint.encode_at i.key.length w rest
      (by simp [varint.length]; omega)
    simp only [varint.length, List.append_assoc, List.length_append,
      List.drop_drop, Nat.add_assoc] at h1 ⊢
    simp only [h1]
    have h2 := copy_from_slice_at (w ++ varint.encodeList i.key.length)
      (rest.drop (varint.encodeList i.key.length).length) i.key
      i.key.length rfl (by simp; omega)
    simp only [varint.length, List.append_assoc, List.length_append,
      List.drop_drop, Nat.add_assoc] at h2 ⊢
    simp only [h2]
    have h3 := varint.encode_at i.val.length
      (w ++ varint.encodeList i.key.length ++ i.key)
      ((rest.drop (varint.encodeList i.key.length).length).drop i.key.length)
      (by simp [varint.length]; omega)
    simp only [varint.length, List.append_assoc, List.length_append,
      List.drop_drop, Nat.add_assoc] at h3 ⊢
    simp only [h3]
    have h4 := copy_from_slice_at
      (w ++ varint.encodeList i.key.length ++ i.key
        ++ varint.encodeList i.val.length)
      (((rest.drop (varint.encodeList i.key.length).length).drop
        i.key.length).drop (varint.encodeList i.val.length).length)
      i.val i.val.length rfl (by simp; omega)
    simp only [varint.length, List.append_assoc, List.length_append,
      List.drop_drop, Nat.add_assoc] at h4 ⊢
    simp only [h4]
    have h5 := ih
      (w ++ varint.encodeList i.key.length ++ i.key
        ++ varint.encodeList i.val.length ++ i.val)
      ((((rest.drop (varint.encodeList i.key.length).length).drop
        i.key.length).drop (varint.encodeList i.val.length).length).drop
          i.val.length)
      (by simp; omega)
    simp only [varint.length, List.append_assoc, List.length_append,
      List.drop_drop, Nat.add_assoc] at h5 ⊢
    simp only [h5]
    simp only [enc_info_cons, enc_entry, Except.ok.injEq, Prod.mk.injEq,
      List.append_assoc, List.length_append, List.drop_drop, Nat.add_assoc]

theorem flatten_length_32 (ls : List (List Nat))
    (h : ∀ l ∈ ls, l.length = 32) : ls.flatten.length = 32 * ls.length := by
  induction ls with
  | nil => simp
  | cons l ls ih =>
    have hl : l.length = 32 := h l (by simp)
    simp only [List.flatten_cons, List.length_append, List.length_cons,
      hl, ih (fun x hx => h x (by simp [hx])), Nat.mul_succ]
    omega

theorem write_header_ok (h : PostHeader) (t : Nat) (buf : List Nat)
    (hpk : h.public_key.length = 32) (hsig : h.signature.length = 64)
    (hlinks : ∀ l ∈ h.links, l.length = 32)
    (hlen : (enc_header h t).length ≤ buf.length) :
    write_header h t buf =
      .ok ((enc_header h t).length,
        enc_header h t ++ buf.drop (enc_header h t).length) := by
  have hfl : h.links.flatten.length = 32 * h.links.length :=
    flatten_length_32 h.links hlinks
  have hexp : 32 + 64 + (varint.encodeList h.links.length).length
      + 32 * h.links.length + (varint.encodeList t).length
      + (varint.encodeList h.timestamp).length ≤ buf.length := by
    have : (enc_header h t).length = 32 + 64
        + (varint.encodeList h.links.length).length + 32 * h.links.length
        + (varint.encodeList t).length
        + (varint.encodeList h.timestamp).length := by
      simp [enc_header, hpk, hsig, hfl]
      omega
    omega
  rw [write_header]
  have h1 := copy_from_slice_prefix buf h.public_key 32 hpk (by omega)
  simp only [varint.length, List.append_assoc, List.length_append,
    List.drop_drop, Nat.add_assoc] at h1 ⊢
  simp only [h1]
  have h2 := copy_from_slice_at h.public_key (buf.drop 32) h.signature 64
    hsig (by simp; omega)
  simp only [varint.length, List.append_assoc, List.length_append,
    List.drop_drop, Nat.add_assoc] at h2 ⊢
  simp only [h2]
  have h3 := varint.encode_at h.links.length (h.public_key ++ h.signature)
    ((buf.drop 32).drop 64) (by simp [varint.length]; omega)
  simp only [varint.length, List.append_assoc, List.length_append,
    List.drop_drop, Nat.add_assoc, hpk, hsig] at h3 ⊢
  simp only [h3]
  have h4 := write_links_at h.links
    (h.public_key ++ h.signature ++ varint.encodeList h.links.length)
    (((buf.drop 32).drop 64).drop (varint.encodeList h.links.length).length)
    hlinks (by simp; omega)
  simp only [varint.length, List.append_assoc, List.length_append,
    List.drop_drop, Nat.add_assoc, hpk, hsig] at h4 ⊢
  simp only [h4]
  have h5 := varint.encode_at t
    (h.public_key ++ h.signature ++ varint.encodeList h.links.length
      ++ h.links.flatten)
    ((((buf.drop 32).drop 64).drop
      (varint.encodeList h.links.length).length).drop h.links.flatten.length)
    (by simp [varint.length, hfl]; omega)
  simp only [varint.length, List.append_assoc, List.length_append,
    List.drop_drop, Nat.add_assoc, hpk, hsig, hfl] at h5 ⊢
  simp only [h5]
  have h6 := varint.encode_at h.timestamp
    (h.public_key ++ h.signature ++ varint.encodeList h.links.length
      ++ h.links.flatten ++ varint.encodeList t)
    (((((buf.drop 32).drop 64).drop
      (varint.encodeList h.links.length).length).drop
        h.links.flatten.length).drop (varint.encodeList t).length)
    (by simp [varint.length, hfl]; omega)
  simp only [varint.length, List.append_assoc, List.length_append,
    List.drop_drop, Nat.add_assoc, hpk, hsig, hfl] at h6 ⊢
  simp only [h6]
  simp only [enc_header, Except.ok.injEq, Prod.mk.injEq, List.append_assoc,
    List.length_append, List.drop_drop, Nat.add_assoc, hpk, hsig, hfl]

theorem write_body_at (b : PostBody) (w rest : List Nat)
    (hrec : b.recognized = true)
    (hdel : ∀ hs, b = .Delete hs → ∀ l ∈ hs, l.length = 32)
    (hlen : (enc_body b).length ≤ rest.length) :
    write_body b (w ++ rest) w.length =
      .ok (w.length + (enc_body b).length,
        w ++ (enc_body b ++ rest.drop (enc_body b).length)) := by
  cases b with
  | Text channel text =>
    simp only [enc_body, List.length_append] at hlen
    rw [write_body]
    have h1 := varint.encode_at channel.length w rest
      (by simp [varint.length]; omega)
    simp only [varint.length, List.append_assoc, List.length_append,
      List.drop_drop, Nat.add_assoc] at h1 ⊢
    simp only [h1]
    have h2 := copy_from_slice_at (w ++ varint.encodeList channel.length)
      (rest.drop (varint.encodeList channel.length).length) channel
      channel.length rfl (by simp; omega)
    simp only [varint.length, List.append_assoc, List.length_append,
      List.drop_drop, Nat.add_assoc] at h2 ⊢
    simp only [h2]
    have h3 := varint.encode_at text.length
      (w ++ varint.encodeList channel.length ++ channel)
      ((rest.drop (varint.encodeList channel.length).length).drop
        channel.length)
      (by simp [varint.length]; omega)
    simp only [varint.length, List.append_assoc, List.length_append,
      List.drop_drop, Nat.add_assoc] at h3 ⊢
    simp only [h3]
    have h4 := copy_from_slice_at
      (w ++ varint.encodeList channel.length ++ channel
        ++ varint.encodeList text.length)
      (((rest.drop (varint.encodeList channel.length).length).drop
        channel.length).drop (varint.encodeList text.length).length)
      text text.length rfl (by simp; omega)
    simp only [varint.length, List.append_assoc, List.length_append,
      List.drop_drop, Nat.add_assoc] at h4 ⊢
    simp only [h4]
    simp only [enc_body, Except.ok.injEq, Prod.mk.injEq, List.append_assoc,
      List.length_append, List.drop_drop, Nat.add_assoc]
  | Delete hashes =>
    have hhs : ∀ l ∈ hashes, l.length = 32 := hdel hashes rfl
    have hfl : hashes.flatten.length = 32 * hashes.length :=
      flatten_length_32 hashes hhs
    simp only [enc_body, List.length_append, hfl] at hlen
    rw [write_body]
    have h1 := varint.encode_at hashes.length w rest
      (by simp [varint.length]; omega)
    simp only [varint.length, List.append_assoc, List.length_append,
      List.drop_drop, Nat.add_assoc] at h1 ⊢
    simp only [h1]
    have h2 := write_links_at hashes (w ++ varint.encodeList hashes.length)
      (rest.drop (varint.encodeList hashes.length).length) hhs
      (by simp; omega)
    simp only [varint.length, List.append_assoc, List.length_append,
      List.drop_drop, Nat.add_assoc] at h2 ⊢
    simp only [h2]
    simp only [enc_body, Except.ok.injEq, Prod.mk.injEq, List.append_assoc,
      List.length_append, List.drop_drop, Nat.add_assoc, hfl]
  | Info info =>
    simp only [enc_body, List.length_append] at hlen
    rw [write_body]
    have h1 := write_info_at info w rest (by omega)
    simp only [varint.length, List.append_assoc, List.length_append,
      List.drop_drop, Nat.add_assoc] at h1 ⊢
    simp only [h1]
    have h2 := varint.encode_at 0 (w ++ enc_info info)
      (rest.drop (enc_info info).length)
      (by simp [varint.length]; omega)
    simp only [varint.length, List.append_assoc, List.length_append,
      List.drop_drop, Nat.add_assoc] at h2 ⊢
    simp only [h2]
    simp only [enc_body, Except.ok.injEq, Prod.mk.injEq, List.append_assoc,
      List.length_append, List.drop_drop, Nat.add_assoc]
  | Topic channel topic =>
    simp only [enc_body, List.length_append] at hlen
    rw [write_body]
    have h1 := varint.encode_at channel.length w rest
      (by simp [varint.length]; omega)
    simp only [varint.length, List.append_assoc, List.length_append,
      List.drop_drop, Nat.add_assoc] at h1 ⊢
    simp only [h1]
    have h2 := copy_from_slice_at (w ++ varint.encodeList channel.length)
      (rest.drop (varint.encodeList channel.length).length) channel
      channel.length rfl (by simp; omega)
    simp only [varint.length, List.append_assoc, List.length_append,
      List.drop_drop, Nat.add_assoc] at h2 ⊢
    simp only [h2]
    have h3 := varint.encode_at topic.length
      (w ++ varint.encodeList channel.length ++ channel)
      ((rest.drop (varint.encodeList channel.length).length).drop
        channel.length)
      (by simp [varint.length]; omega)
    simp only [varint.length, List.append_assoc, List.length_append,
      List.drop_drop, Nat.add_assoc] at h3 ⊢
    simp only [h3]
    have h4 := copy_from_slice_at
      (w ++ varint.encodeList channel.length ++ channel
        ++ varint.encodeList topic.length)
      (((rest.drop (varint.encodeList channel.length).length).drop
        channel.length).drop (varint.encodeList topic.length).length)
      topic topic.length rfl (by simp; omega)
    simp only [varint.length, List.append_assoc, List.length_append,
      List.drop_drop, Nat.add_assoc] at h4 ⊢
    simp only [h4]
    simp only [enc_body, Except.ok.injEq, Prod.mk.injEq, List.append_assoc,
      List.length_append, List.drop_drop, Nat.add_assoc]
  | Join channel =>
    simp only [enc_body, List.length_append] at hlen
    rw [write_body]
    have h1 := varint.encode_at channel.length w rest
      (by simp [varint.length]; omega)
    simp only [varint.length, List.append_assoc, List.length_append,
      List.drop_drop, Nat.add_assoc] at h1 ⊢
    simp only [h1]
    have h2 := copy_from_slice_at (w ++ varint.encodeList channel.length)
      (rest.drop (varint.encodeList channel.length).length) channel
      channel.length rfl (by simp; omega)
    simp only [varint.length, List.append_assoc, List.length_append,
      List.drop_drop, Nat.add_assoc] at h2 ⊢
    simp only [h2]
    simp only [enc_body, Except.ok.injEq, Prod.mk.injEq, List.append_assoc,
      List.length_append, List.drop_drop, Nat.add_assoc]
  | Leave channel =>
    simp only [enc_body, List.length_append] at hlen
    rw [write_body]
    have h1 := varint.encode_at channel.length w rest
      (by simp [varint.length]; omega)
    simp only [varint.length, List.append_assoc, List.length_append,
      List.drop_drop, Nat.add_assoc] at h1 ⊢
    simp only [h1]
    have h2 := copy_from_slice_at (w ++ varint.encodeList channel.length)
      (rest.drop (varint.encodeList channel.length).length) channel
      channel.length rfl (by simp; omega)
    simp only [varint.length, List.append_assoc, List.length_append,
      List.drop_drop, Nat.add_assoc] at h2 ⊢
    simp only [h2]
    simp only [enc_body, Except.ok.injEq, Prod.mk.injEq, List.append_assoc,
      List.length_append, List.drop_drop, Nat.add_assoc]
  | Unrecognized post_type => simp [PostBody.recognized] at hrec

theorem info_foldl_acc (info : List UserInfo) :
    ∀ a : Nat, info.foldl (fun sum i => sum + varint.length i.key.length
      + i.key.length + varint.length i.val.length + i.val.length) a
      = a + (enc_info info).length := by
  induction info with
  | nil => intro a; simp [enc_info]
  | cons i is ih =>
    intro a
    rw [List.foldl_cons, ih, enc_info_cons]
    simp only [List.length_append, enc_entry_length, varint.length]
    omega

theorem enc_post_length (p : Post)
    (hpk : p.header.public_key.length = 32)
    (hsig : p.header.signature.length = 64)
    (hlinks : ∀ l ∈ p.header.links, l.length = 32)
    (hdel : ∀ hs, p.body = .Delete hs → ∀ l ∈ hs, l.length = 32) :
    (enc_post p).length = p.count_bytes := by
  have hfl := flatten_length_32 p.header.links hlinks
  obtain ⟨header, body⟩ := p
  cases body with
  | Text channel text =>
    simp [enc_post, enc_header, enc_body, Post.count_bytes, Post.post_type,
      varint.length, hpk, hsig, hfl]
    omega
  | Delete hashes =>
    have hh := hdel hashes rfl
    have hfl2 := flatten_length_32 hashes hh
    simp [enc_post, enc_header, enc_body, Post.count_bytes, Post.post_type,
      varint.length, hpk, hsig, hfl, hfl2]
    omega
  | Info info =>
    simp only [enc_post, enc_header, enc_body, Post.count_bytes,
      Post.post_type]
    rw [info_foldl_acc]
    simp [varint.length, hpk, hsig, hfl]
    omega
  | Topic channel topic =>
    simp [enc_post, enc_header, enc_body, Post.count_bytes, Post.post_type,
      varint.length, hpk, hsig, hfl]
    omega
  | Join channel =>
    simp [enc_post, enc_header, enc_body, Post.count_bytes, Post.post_type,
      varint.length, hpk, hsig, hfl]
    omega
  | Leave channel =>
    simp [enc_post, enc_header, enc_body, Post.count_bytes, Post.post_type,
      varint.length, hpk, hsig, hfl]
    omega
  | Unrecognized t =>
    simp [enc_post, enc_header, enc_body, Post.count_bytes, Post.post_type,
      varint.length, hpk, hsig, hfl]
    omega

theorem write_bytes_ok (p : Post) (buf : List Nat)
    (hpk : p.header.public_key.length = 32)
    (hsig : p.header.signature.length = 64)
    (hlinks : ∀ l ∈ p.header.links, l.length = 32)
    (hdel : ∀ hs, p.body = .Delete hs → ∀ l ∈ hs, l.length = 32)
    (hrec : p.body.recognized = true)
    (hlen : p.count_bytes ≤ buf.length) :
    p.write_bytes buf =
      .ok (p.count_bytes, enc_post p ++ buf.drop p.count_bytes) := by
  have hEL := enc_post_length p hpk hsig hlinks hdel
  have hsplit : (enc_header p.header p.post_type).length
      + (enc_body p.body).length = p.count_bytes := by
    rw [← hEL]
    simp [enc_post]
  rw [Post.write_bytes]
  rw [write_header_ok p.header p.post_type buf hpk hsig hlinks (by omega)]
  have h2 := write_body_at p.body (enc_header p.header p.post_type)
    (buf.drop (enc_header p.header p.post_type).length) hrec hdel
    (by simp; omega)
  simp only [List.append_assoc, List.length_append, List.drop_drop,
    Nat.add_assoc] at h2 ⊢
  simp only [h2]
  simp only [enc_post, Except.ok.injEq, Prod.mk.injEq, List.append_assoc,
    List.length_append, List.drop_drop, Nat.add_assoc] at hsplit hEL ⊢
  constructor
  · omega
  · repeat' congr 1

theorem to_bytes_ok (p : Post)
    (hpk : p.header.public_key.length = 32)
    (hsig : p.header.signature.length = 64)
    (hlinks : ∀ l ∈ p.header.links, l.length = 32)
    (hdel : ∀ hs, p.body = .Delete hs → ∀ l ∈ hs, l.length = 32)
    (hrec : p.body.recognized = true) :
    p.to_bytes = .ok (enc_post p) := by
  rw [Post.to_bytes]
  rw [write_bytes_ok p (List.replicate p.count_bytes 0) hpk hsig hlinks hdel
    hrec (by simp)]
  simp

theorem drop_pref (a b : List Nat) (n : Nat) (h : a.length = n) :
    (a ++ b).drop n = b := by
  subst h
  exact List.drop_left a b

theorem take_exact_at (a r : List Nat) (k : Nat) (hk : a.length = k) :
    take_exact (a ++ r) k = .ok a := by
  unfold take_exact
  rw [if_pos (by simp; omega)]
  subst hk
  rw [List.take_left]

theorem take_string_at (a r : List Nat) (k : Nat) (hk : a.length = k)
    (hu : utf8Valid a = true) :
    take_string (a ++ r) k = .ok a := by
  unfold take_string
  rw [if_pos (by simp; omega)]
  subst hk
  rw [List.take_left, if_pos hu]

theorem decode_links_enc (ls : List (List Nat)) :
    ∀ r : List Nat, (∀ l ∈ ls, l.length = 32) →
    decode_links ls.length (ls.flatten ++ r) = .ok (32 * ls.length, ls) := by
  induction ls with
  | nil => intro r _; simp [decode_links]
  | cons l ls ih =>
    intro r hall
    have hl : l.length = 32 := hall l (by simp)
    rw [List.length_cons, decode_links]
    have hbuf : (l :: ls).flatten ++ r = l ++ (ls.flatten ++ r) := by
      simp [List.append_assoc]
    rw [hbuf]
    rw [if_neg (by simp [hl])]
    rw [drop_pref l (ls.flatten ++ r) 32 hl]
    rw [ih r (fun x hx => hall x (by simp [hx]))]
    have htake : (l ++ (ls.flatten ++ r)).take 32 = l := by
      rw [← hl, List.take_left]
    rw [htake]
    simp [Nat.mul_succ]

theorem varint.length_zero : varint.length 0 = 1 := by
  rw [varint.length, varint.encodeList]
  simp

theorem decode_info_enc (info : List UserInfo) :
    ∀ (fuel : Nat) (r : List Nat), info.length < fuel →
    (∀ i ∈ info, i.key ≠ [] ∧ i.key.length < 2 ^ 64
      ∧ i.val.length < 2 ^ 64
      ∧ utf8Valid i.key = true ∧ utf8Valid i.val = true
      ∧ (i.key = nameBytes → 1 ≤ i.val.length ∧ i.val.length ≤ 32)) →
    decode_info fuel (enc_info info ++ (varint.encodeList 0 ++ r)) =
      .ok ((enc_info info).length + 1, info) := by
  induction info with
  | nil =>
    intro fuel r hfuel _
    obtain ⟨f, rfl⟩ : ∃ f, fuel = f + 1 := by
      cases fuel with
      | zero => omega
      | succ f => exact ⟨f, rfl⟩
    rw [decode_info]
    have h1 := varint.decode_encodeList 0 r (by norm_num)
    simp only [enc_info, List.map_nil, List.flatten_nil, List.nil_append]
    simp only [h1, varint.length_zero]
    simp
  | cons i is ih =>
    intro fuel r hfuel hall
    obtain ⟨hkne, hkb, hvb, hku, hvu, hname⟩ := hall i (by simp)
    obtain ⟨f, rfl⟩ : ∃ f, fuel = f + 1 := by
      cases fuel with
      | zero => simp at hfuel
      | succ f => exact ⟨f, rfl⟩
    have hbuf : enc_info (i :: is) ++ (varint.encodeList 0 ++ r) =
        varint.encodeList i.key.length ++ (i.key
          ++ (varint.encodeList i.val.length ++ (i.val
            ++ (enc_info is ++ (varint.encodeList 0 ++ r))))) := by
      simp [enc_info_cons, enc_entry, List.append_assoc]
    rw [hbuf, decode_info]
    have h1 := varint.decode_encodeList i.key.length
      (i.key ++ (varint.encodeList i.val.length ++ (i.val
        ++ (enc_info is ++ (varint.encodeList 0 ++ r))))) hkb
    simp only [varint.length] at h1
    simp only [h1]
    rw [if_neg (by simpa using hkne)]
    have d1 : (varint.encodeList i.key.length ++ (i.key
        ++ (varint.encodeList i.val.length ++ (i.val
          ++ (enc_info is ++ (varint.encodeList 0 ++ r)))))).drop
            (varint.encodeList i.key.length).length =
        i.key ++ (varint.encodeList i.val.length ++ (i.val
          ++ (enc_info is ++ (varint.encodeList 0 ++ r)))) :=
      drop_pref _ _ _ rfl
    simp only [d1]
    rw [take_string_at i.key _ i.key.length rfl hku]
    have d2 : (varint.encodeList i.key.length ++ (i.key
        ++ (varint.encodeList i.val.length ++ (i.val
          ++ (enc_info is ++ (varint.encodeList 0 ++ r)))))).drop
            ((varint.encodeList i.key.length).length + i.key.length) =
        varint.encodeList i.val.length ++ (i.val
          ++ (enc_info is ++ (varint.encodeList 0 ++ r))) := by
      rw [show varint.encodeList i.key.length ++ (i.key
          ++ (varint.encodeList i.val.length ++ (i.val
            ++ (enc_info is ++ (varint.encodeList 0 ++ r))))) =
        (varint.encodeList i.key.length ++ i.key)
          ++ (varint.encodeList i.val.length ++ (i.val
            ++ (enc_info is ++ (varint.encodeList 0 ++ r)))) by
        simp [List.append_assoc]]
      exact drop_pref _ _ _ (by simp)
    simp only [d2]
    have h2 := varint.decode_encodeList i.val.length
      (i.val ++ (enc_info is ++ (varint.encodeList 0 ++ r))) hvb
    simp only [varint.length] at h2
    simp only [h2]
    have d3 : (varint.encodeList i.key.length ++ (i.key
        ++ (varint.encodeList i.val.length ++ (i.val
          ++ (enc_info is ++ (varint.encodeList 0 ++ r)))))).drop
            ((varint.encodeList i.key.length).length + i.key.length
              + (varint.encodeList i.val.length).length) =
        i.val ++ (enc_info is ++ (varint.encodeList 0 ++ r)) := by
      rw [show varint.encodeList i.key.length ++ (i.key
          ++ (varint.encodeList i.val.length ++ (i.val
            ++ (enc_info is ++ (varint.encodeList 0 ++ r))))) =
        (varint.encodeList i.key.length ++ i.key
          ++ varint.encodeList i.val.length)
          ++ (i.val ++ (enc_info is ++ (varint.encodeList 0 ++ r))) by
        simp [List.append_assoc]]
      exact drop_pref _ _ _ (by simp [List.length_append, Nat.add_assoc])
    simp only [d3]
    rw [take_string_at i.val _ i.val.length rfl hvu]
    have hentry : (if i.key = nameBytes then UserInfo.name i.val
        else .ok (UserInfo.new i.key i.val)) =
        (.ok i : Except Failure UserInfo) := by
      by_cases hk : i.key = nameBytes
      · rw [if_pos hk]
        rw [UserInfo.name, validate_username, if_pos (hname hk)]
        rw [← hk]
      · rw [if_neg hk, UserInfo.new]
    simp only [hentry]
    have d4 : (varint.encodeList i.key.length ++ (i.key
        ++ (varint.encodeList i.val.length ++ (i.val
          ++ (enc_info is ++ (varint.encodeList 0 ++ r)))))).drop
            ((varint.encodeList i.key.length).length + i.key.length
              + (varint.encodeList i.val.length).length + i.val.length) =
        enc_info is ++ (varint.encodeList 0 ++ r) := by
      rw [show varint.encodeList i.key.length ++ (i.key
          ++ (varint.encodeList i.val.length ++ (i.val
            ++ (enc_info is ++ (varint.encodeList 0 ++ r))))) =
        (varint.encodeList i.key.length ++ i.key
          ++ varint.encodeList i.val.length ++ i.val)
          ++ (enc_info is ++ (varint.encodeList 0 ++ r)) by
        simp [List.append_assoc]]
      exact drop_pref _ _ _ (by simp [List.length_append, Nat.add_assoc])
    simp only [d4]
    rw [ih f r (by simpa using hfuel) (fun x hx => hall x (by simp [hx]))]
    simp only [Except.ok.injEq, Prod.mk.injEq, enc_info_cons,
      List.length_append, enc_entry_length]
    constructor
    · omega
    · trivial

theorem decode_header_enc (h : PostHeader) (t : Nat) (r : List Nat)
    (hpk : h.public_key.length = 32) (hsig : h.signature.length = 64)
    (hlinks : ∀ l ∈ h.links, l.length = 32)
    (hnl : h.links.length < 2 ^ 64) (ht : t < 2 ^ 64)
    (hts : h.timestamp < 2 ^ 64) :
    decode_header (enc_header h t ++ r) =
      .ok ((enc_header h t).length,
        ⟨h.public_key, h.signature, h.links, t, h.timestamp⟩) := by
  have hfl : h.links.flatten.length = 32 * h.links.length :=
    flatten_length_32 h.links hlinks
  have hbuf : enc_header h t ++ r = h.public_key ++ (h.signature
      ++ (varint.encodeList h.links.length ++ (h.links.flatten
        ++ (varint.encodeList t ++ (varint.encodeList h.timestamp ++ r))))) := by
    simp [enc_header, List.append_assoc]
  rw [decode_header, hbuf]
  rw [take_exact_at h.public_key _ 32 hpk]
  have d1 : (h.public_key ++ (h.signature
      ++ (varint.encodeList h.links.length ++ (h.links.flatten
        ++ (varint.encodeList t
          ++ (varint.encodeList h.timestamp ++ r)))))).drop 32 =
      h.signature ++ (varint.encodeList h.links.length ++ (h.links.flatten
        ++ (varint.encodeList t ++ (varint.encodeList h.timestamp ++ r)))) :=
    drop_pref _ _ 32 hpk
  simp only [d1]
  rw [take_exact_at h.signature _ 64 hsig]
  have d2 : (h.public_key ++ (h.signature
      ++ (varint.encodeList h.links.length ++ (h.links.flatten
        ++ (varint.encodeList t
          ++ (varint.encodeList h.timestamp ++ r)))))).drop 96 =
      varint.encodeList h.links.length ++ (h.links.flatten
        ++ (varint.encodeList t ++ (varint.encodeList h.timestamp ++ r))) := by
    rw [show h.public_key ++ (h.signature
        ++ (varint.encodeList h.links.length ++ (h.links.flatten
          ++ (varint.encodeList t
            ++ (varint.encodeList h.timestamp ++ r))))) =
      (h.public_key ++ h.signature)
        ++ (varint.encodeList h.links.length ++ (h.links.flatten
          ++ (varint.encodeList t ++ (varint.encodeList h.timestamp ++ r))))
      by simp [List.append_assoc]]
    exact drop_pref _ _ 96 (by simp [hpk, hsig])
  simp only [d2]
  have h3 := varint.decode_encodeList h.links.length
    (h.links.flatten ++ (varint.encodeList t
      ++ (varint.encodeList h.timestamp ++ r))) hnl
  simp only [varint.length] at h3
  simp only [h3]
  have d3 : (h.public_key ++ (h.signature
      ++ (varint.encodeList h.links.length ++ (h.links.flatten
        ++ (varint.encodeList t
          ++ (varint.encodeList h.timestamp ++ r)))))).drop
        (96 + (varint.encodeList h.links.length).length) =
      h.links.flatten ++ (varint.encodeList t
        ++ (varint.encodeList h.timestamp ++ r)) := by
    rw [show h.public_key ++ (h.signature
        ++ (varint.encodeList h.links.length ++ (h.links.flatten
          ++ (varint.encodeList t
            ++ (varint.encodeList h.timestamp ++ r))))) =
      (h.public_key ++ h.signature ++ varint.encodeList h.links.length)
        ++ (h.links.flatten ++ (varint.encodeList t
          ++ (varint.encodeList h.timestamp ++ r)))
      by simp [List.append_assoc]]
    exact drop_pref _ _ _ (by simp [hpk, hsig]; omega)
  simp only [d3]
  rw [decode_links_enc h.links
    (varint.encodeList t ++ (varint.encodeList h.timestamp ++ r)) hlinks]
  have d4 : (h.public_key ++ (h.signature
      ++ (varint.encodeList h.links.length ++ (h.links.flatten
        ++ (varint.encodeList t
          ++ (varint.encodeList h.timestamp ++ r)))))).drop
        (96 + (varint.encodeList h.links.length).length
          + 32 * h.links.length) =
      varint.encodeList t ++ (varint.encodeList h.timestamp ++ r) := by
    rw [show h.public_key ++ (h.signature
        ++ (varint.encodeList h.links.length ++ (h.links.flatten
          ++ (varint.encodeList t
            ++ (varint.encodeList h.timestamp ++ r))))) =
      (h.public_key ++ h.signature ++ varint.encodeList h.links.length
        ++ h.links.flatten)
        ++ (varint.encodeList t ++ (varint.encodeList h.timestamp ++ r))
      by simp [List.append_assoc]]
    exact drop_pref _ _ _ (by simp [hpk, hsig, hfl]; omega)
  simp only [d4]
  have h5 := varint.decode_encodeList t
    (varint.encodeList h.timestamp ++ r) ht
  simp only [varint.length] at h5
  simp only [h5]
  have d5 : (h.public_key ++ (h.signature
      ++ (varint.encodeList h.links.length ++ (h.links.flatten
        ++ (varint.encodeList t
          ++ (varint.encodeList h.timestamp ++ r)))))).drop
        (96 + (varint.encodeList h.links.length).length
          + 32 * h.links.length + (varint.encodeList t).length) =
      varint.encodeList h.timestamp ++ r := by
    rw [show h.public_key ++ (h.signature
        ++ (varint.encodeList h.links.length ++ (h.links.flatten
          ++ (varint.encodeList t
            ++ (varint.encodeList h.timestamp ++ r))))) =
      (h.public_key ++ h.signature ++ varint.encodeList h.links.length
        ++ h.links.flatten ++ varint.encodeList t)
        ++ (varint.encodeList h.timestamp ++ r)
      by simp [List.append_assoc]]
    exact drop_pref _ _ _ (by simp [hpk, hsig, hfl]; omega)
  simp only [d5]
  have h6 := varint.decode_encodeList h.timestamp r hts
  simp only [varint.length] at h6
  simp only [h6]
  simp only [Except.ok.injEq, Prod.mk.injEq]
  constructor
  · simp [enc_header, List.length_append, hpk, hsig, hfl]
    omega
  · trivial

theorem enc_info_length_ge (info : List UserInfo) :
    info.length ≤ (enc_info info).length := by
  induction info with
  | nil => simp
  | cons i is ih =>
    rw [enc_info_cons]
    have h1 : 1 ≤ (varint.encodeList i.key.length).length :=
      varint.length_pos i.key.length
    have h2 := enc_entry_length i
    simp only [List.length_append, List.length_cons]
    omega

theorem from_bytes_enc (p : Post)
    (hpk : p.header.public_key.length = 32)
    (hsig : p.header.signature.length = 64)
    (hlinks : ∀ l ∈ p.header.links, l.length = 32)
    (hdel : ∀ hs, p.body = .Delete hs → ∀ l ∈ hs, l.length = 32)
    (hrec : p.body.recognized = true)
    (hcounts : p.counts_ok = true)
    (hstrings : p.strings_utf8 = true)
    (hvalid : p.valid_ok = true)
    (hkeys : p.info_keys_nonempty = true)
    (hhdr : p.header.post_type = p.post_type) :
    Post.from_bytes (enc_post p) = .ok ((enc_post p).length, p) := by
  obtain ⟨⟨pk0, sig0, links0, pt0, ts0⟩, body⟩ := p
  simp only [PostHeader.public_key] at hpk
  simp only [PostHeader.signature] at hsig
  simp only [PostHeader.links] at hlinks
  cases body with
  | Text channel text =>
    simp only [Post.counts_ok, Post.post_type, TEXT_POST, Bool.and_eq_true,
      decide_eq_true_eq] at hcounts
    obtain ⟨⟨⟨hnl, _⟩, hts⟩, hcl, htl⟩ := hcounts
    simp only [Post.strings_utf8, Bool.and_eq_true] at hstrings
    obtain ⟨hcu, htu⟩ := hstrings
    simp only [Post.valid_ok, Bool.and_eq_true, decide_eq_true_eq] at hvalid
    obtain ⟨hv1, hv2⟩ := hvalid
    simp only [Post.post_type, TEXT_POST] at hhdr
    subst hhdr
    rw [Post.from_bytes]
    have hENC : enc_post ⟨⟨pk0, sig0, links0, 0, ts0⟩, .Text channel text⟩ =
        enc_header ⟨pk0, sig0, links0, 0, ts0⟩ 0
          ++ enc_body (.Text channel text) := by
      simp [enc_post, Post.post_type, TEXT_POST]
    rw [hENC]
    rw [decode_header_enc _ 0 _ hpk hsig hlinks hnl (by norm_num) hts]
    have d1 : (enc_header ⟨pk0, sig0, links0, 0, ts0⟩ 0
        ++ enc_body (.Text channel text)).drop
          (enc_header ⟨pk0, sig0, links0, 0, ts0⟩ 0).length =
        enc_body (.Text channel text) := drop_pref _ _ _ rfl
    have h1 : varint.decode (enc_body (.Text channel text)) =
        .ok ((varint.encodeList channel.length).length, channel.length) := by
      rw [show enc_body (.Text channel text) =
        varint.encodeList channel.length ++ (channel
          ++ (varint.encodeList text.length ++ text)) by
        simp [enc_body, List.append_assoc]]
      have := varint.decode_encodeList channel.length
        (channel ++ (varint.encodeList text.length ++ text)) hcl
      simpa [varint.length] using this
    have d2 : (enc_header ⟨pk0, sig0, links0, 0, ts0⟩ 0
        ++ enc_body (.Text channel text)).drop
          ((enc_header ⟨pk0, sig0, links0, 0, ts0⟩ 0).length
            + (varint.encodeList channel.length).length) =
        channel ++ (varint.encodeList text.length ++ text) := by
      rw [show enc_header ⟨pk0, sig0, links0, 0, ts0⟩ 0
          ++ enc_body (.Text channel text) =
        (enc_header ⟨pk0, sig0, links0, 0, ts0⟩ 0
          ++ varint.encodeList channel.length)
          ++ (channel ++ (varint.encodeList text.length ++ text)) by
        simp [enc_body, List.append_assoc]]
      exact drop_pref _ _ _ (by simp)
    have h2 := take_string_at channel
      (varint.encodeList text.length ++ text) channel.length rfl hcu
    have hval : validate_channel channel = .ok () := by
      rw [validate_channel, if_pos ⟨hv1, hv2⟩]
    have d3 : (enc_header ⟨pk0, sig0, links0, 0, ts0⟩ 0
        ++ enc_body (.Text channel text)).drop
          ((enc_header ⟨pk0, sig0, links0, 0, ts0⟩ 0).length
            + (varint.encodeList channel.length).length + channel.length) =
        varint.encodeList text.length ++ text := by
      rw [show enc_header ⟨pk0, sig0, links0, 0, ts0⟩ 0
          ++ enc_body (.Text channel text) =
        (enc_header ⟨pk0, sig0, links0, 0, ts0⟩ 0
          ++ varint.encodeList channel.length ++ channel)
          ++ (varint.encodeList text.length ++ text) by
        simp [enc_body, List.append_assoc]]
      exact drop_pref _ _ _ (by simp [List.length_append, Nat.add_assoc])
    have h3 : varint.decode (varint.encodeList text.length ++ text) =
        .ok ((varint.encodeList text.length).length, text.length) := by
      have := varint.decode_encodeList text.length text htl
      simpa [varint.length] using this
    have d4 : (enc_header ⟨pk0, sig0, links0, 0, ts0⟩ 0
        ++ enc_body (.Text channel text)).drop
          ((enc_header ⟨pk0, sig0, links0, 0, ts0⟩ 0).length
            + (varint.encodeList channel.length).length + channel.length
            + (varint.encodeList text.length).length) =
        text := by
      rw [show enc_header ⟨pk0, sig0, links0, 0, ts0⟩ 0
          ++ enc_body (.Text channel text) =
        (enc_header ⟨pk0, sig0, links0, 0, ts0⟩ 0
          ++ varint.encodeList channel.length ++ channel
          ++ varint.encodeList text.length) ++ text by
        simp [enc_body, List.append_assoc]]
      exact drop_pref _ _ _ (by simp [List.length_append, Nat.add_assoc])
    have h4 : take_string text text.length = .ok text := by
      simpa using take_string_at text [] text.length rfl htu
    simp only [TEXT_POST, PostHeader.post_type, if_pos, d1, h1, d2, h2,
      hval, d3, h3, d4, h4]
    simp only [Except.ok.injEq, Prod.mk.injEq]
    constructor
    · simp [enc_body, List.length_append]
      omega
    · trivial
  | Delete hashes =>
    have hhs : ∀ l ∈ hashes, l.length = 32 := hdel hashes rfl
    have hfl2 : hashes.flatten.length = 32 * hashes.length :=
      flatten_length_32 hashes hhs
    simp only [Post.counts_ok, Post.post_type, DELETE_POST, Bool.and_eq_true,
      decide_eq_true_eq] at hcounts
    obtain ⟨⟨⟨hnl, _⟩, hts⟩, hnh⟩ := hcounts
    simp only [Post.post_type, DELETE_POST] at hhdr
    subst hhdr
    rw [Post.from_bytes]
    have hENC : enc_post ⟨⟨pk0, sig0, links0, 1, ts0⟩, .Delete hashes⟩ =
        enc_header ⟨pk0, sig0, links0, 1, ts0⟩ 1
          ++ enc_body (.Delete hashes) := by
      simp [enc_post, Post.post_type, DELETE_POST]
    rw [hENC]
    simp only [decode_header_enc ⟨pk0, sig0, links0, 1, ts0⟩ 1
      (enc_body (.Delete hashes)) hpk hsig hlinks hnl (by norm_num) hts]
    rw [if_neg (by simp [PostHeader.post_type, TEXT_POST])]
    rw [if_pos (by simp [PostHeader.post_type, DELETE_POST])]
    have d1 : (enc_header ⟨pk0, sig0, links0, 1, ts0⟩ 1
        ++ enc_body (.Delete hashes)).drop
          (enc_header ⟨pk0, sig0, links0, 1, ts0⟩ 1).length =
        enc_body (.Delete hashes) := drop_pref _ _ _ rfl
    have h1 : varint.decode (enc_body (.Delete hashes)) =
        .ok ((varint.encodeList hashes.length).length, hashes.length) := by
      rw [show enc_body (.Delete hashes) =
        varint.encodeList hashes.length ++ hashes.flatten by
        simp [enc_body]]
      have := varint.decode_encodeList hashes.length hashes.flatten hnh
      simpa [varint.length] using this
    have d2 : (enc_header ⟨pk0, sig0, links0, 1, ts0⟩ 1
        ++ enc_body (.Delete hashes)).drop
          ((enc_header ⟨pk0, sig0, links0, 1, ts0⟩ 1).length
            + (varint.encodeList hashes.length).length) =
        hashes.flatten := by
      rw [show enc_header ⟨pk0, sig0, links0, 1, ts0⟩ 1
          ++ enc_body (.Delete hashes) =
        (enc_header ⟨pk0, sig0, links0, 1, ts0⟩ 1
          ++ varint.encodeList hashes.length) ++ hashes.flatten by
        simp [enc_body, List.append_assoc]]
      exact drop_pref _ _ _ (by simp)
    have h2 : decode_links hashes.length hashes.flatten =
        .ok (32 * hashes.length, hashes) := by
      simpa using decode_links_enc hashes [] hhs
    simp only [d1, h1, d2, h2]
    simp only [Except.ok.injEq, Prod.mk.injEq]
    constructor
    · simp [enc_body, List.length_append, hfl2]
      omega
    · trivial
  | Info info =>
    simp only [Post.counts_ok, Post.post_type, INFO_POST, Bool.and_eq_true,
      decide_eq_true_eq, List.all_eq_true] at hcounts
    obtain ⟨⟨⟨hnl, _⟩, hts⟩, hinfo⟩ := hcounts
    simp only [Post.strings_utf8, Bool.and_eq_true,
      List.all_eq_true] at hstrings
    simp only [Post.valid_ok, List.all_eq_true] at hvalid
    simp only [Post.info_keys_nonempty, List.all_eq_true] at hkeys
    simp only [Post.post_type, INFO_POST] at hhdr
    subst hhdr
    rw [Post.from_bytes]
    have hENC : enc_post ⟨⟨pk0, sig0, links0, 2, ts0⟩, .Info info⟩ =
        enc_header ⟨pk0, sig0, links0, 2, ts0⟩ 2 ++ enc_body (.Info info) := by
      simp [enc_post, Post.post_type, INFO_POST]
    rw [hENC]
    simp only [decode_header_enc ⟨pk0, sig0, links0, 2, ts0⟩ 2
      (enc_body (.Info info)) hpk hsig hlinks hnl (by norm_num) hts]
    rw [if_neg (by simp [PostHeader.post_type, TEXT_POST])]
    rw [if_neg (by simp [PostHeader.post_type, DELETE_POST])]
    rw [if_pos (by simp [PostHeader.post_type, INFO_POST])]
    have d1 : (enc_header ⟨pk0, sig0, links0, 2, ts0⟩ 2
        ++ enc_body (.Info info)).drop
          (enc_header ⟨pk0, sig0, links0, 2, ts0⟩ 2).length =
        enc_body (.Info info) := drop_pref _ _ _ rfl
    have hI : decode_info ((enc_body (.Info info)).length + 1)
        (enc_body (.Info info)) =
        .ok ((enc_info info).length + 1, info) := by
      rw [show enc_body (.Info info) =
        enc_info info ++ (varint.encodeList 0 ++ []) by simp [enc_body]]
      refine decode_info_enc info _ [] ?_ ?_
      · have := enc_info_length_ge info
        simp
        omega
      · intro i hi
        refine ⟨?_, (hinfo i hi).1, (hinfo i hi).2,
          (hstrings i hi).1, (hstrings i hi).2, ?_⟩
        · have := hkeys i hi
          simpa [List.isEmpty_iff] using this
        · intro hk
          have := hvalid i hi
          simpa [hk] using this
    simp only [d1, hI]
    simp only [Except.ok.injEq, Prod.mk.injEq]
    constructor
    · have hz : (varint.encodeList 0).length = 1 := varint.length_zero
      simp [enc_body, List.length_append, hz]
    · trivial
  | Topic channel topic =>
    simp only [Post.counts_ok, Post.post_type, TOPIC_POST, Bool.and_eq_true,
      decide_eq_true_eq] at hcounts
    obtain ⟨⟨⟨hnl, _⟩, hts⟩, hcl, htl⟩ := hcounts
    simp only [Post.strings_utf8, Bool.and_eq_true] at hstrings
    obtain ⟨hcu, htu⟩ := hstrings
    simp only [Post.valid_ok, Bool.and_eq_true, decide_eq_true_eq] at hvalid
    obtain ⟨⟨hv1, hv2⟩, hvt⟩ := hvalid
    simp only [Post.post_type, TOPIC_POST] at hhdr
    subst hhdr
    rw [Post.from_bytes]
    have hENC : enc_post ⟨⟨pk0, sig0, links0, 3, ts0⟩, .Topic channel topic⟩ =
        enc_header ⟨pk0, sig0, links0, 3, ts0⟩ 3
          ++ enc_body (.Topic channel topic) := by
      simp [enc_post, Post.post_type, TOPIC_POST]
    rw [hENC]
    simp only [decode_header_enc ⟨pk0, sig0, links0, 3, ts0⟩ 3
      (enc_body (.Topic channel topic)) hpk hsig hlinks hnl (by norm_num)
      hts]
    rw [if_neg (by simp [PostHeader.post_type, TEXT_POST])]
    rw [if_neg (by simp [PostHeader.post_type, DELETE_POST])]
    rw [if_neg (by simp [PostHeader.post_type, INFO_POST])]
    rw [if_pos (by simp [PostHeader.post_type, TOPIC_POST])]
    have d1 : (enc_header ⟨pk0, sig0, links0, 3, ts0⟩ 3
        ++ enc_body (.Topic channel topic)).drop
          (enc_header ⟨pk0, sig0, links0, 3, ts0⟩ 3).length =
        enc_body (.Topic channel topic) := drop_pref _ _ _ rfl
    have h1 : varint.decode (enc_body (.Topic channel topic)) =
        .ok ((varint.encodeList channel.length).length, channel.length) := by
      rw [show enc_body (.Topic channel topic) =
        varint.encodeList channel.length ++ (channel
          ++ (varint.encodeList topic.length ++ topic)) by
        simp [enc_body, List.append_assoc]]
      have := varint.decode_encodeList channel.length
        (channel ++ (varint.encodeList topic.length ++ topic)) hcl
      simpa [varint.length] using this
    have d2 : (enc_header ⟨pk0, sig0, links0, 3, ts0⟩ 3
        ++ enc_body (.Topic channel topic)).drop
          ((enc_header ⟨pk0, sig0, links0, 3, ts0⟩ 3).length
            + (varint.encodeList channel.length).length) =
        channel ++ (varint.encodeList topic.length ++ topic) := by
      rw [show enc_header ⟨pk0, sig0, links0, 3, ts0⟩ 3
          ++ enc_body (.Topic channel topic) =
        (enc_header ⟨pk0, sig0, links0, 3, ts0⟩ 3
          ++ varint.encodeList channel.length)
          ++ (channel ++ (varint.encodeList topic.length ++ topic)) by
        simp [enc_body, List.append_assoc]]
      exact drop_pref _ _ _ (by simp)
    have h2 := take_string_at channel
      (varint.encodeList topic.length ++ topic) channel.length rfl hcu
    have hval : validate_channel channel = .ok () := by
      rw [validate_channel, if_pos ⟨hv1, hv2⟩]
    have d3 : (enc_header ⟨pk0, sig0, links0, 3, ts0⟩ 3
        ++ enc_body (.Topic channel topic)).drop
          ((enc_header ⟨pk0, sig0, links0, 3, ts0⟩ 3).length
            + (varint.encodeList channel.length).length + channel.length) =
        varint.encodeList topic.length ++ topic := by
      rw [show enc_header ⟨pk0, sig0, links0, 3, ts0⟩ 3
          ++ enc_body (.Topic channel topic) =
        (enc_header ⟨pk0, sig0, links0, 3, ts0⟩ 3
          ++ varint.encodeList channel.length ++ channel)
          ++ (varint.encodeList topic.length ++ topic) by
        simp [enc_body, List.append_assoc]]
      exact drop_pref _ _ _ (by simp [List.length_append, Nat.add_assoc])
    have h3 : varint.decode (varint.encodeList topic.length ++ topic) =
        .ok ((varint.encodeList topic.length).length, topic.length) := by
      have := varint.decode_encodeList topic.length topic htl
      simpa [varint.length] using this
    have d4 : (enc_header ⟨pk0, sig0, links0, 3, ts0⟩ 3
        ++ enc_body (.Topic channel topic)).drop
          ((enc_header ⟨pk0, sig0, links0, 3, ts0⟩ 3).length
            + (varint.encodeList channel.length).length + channel.length
            + (varint.encodeList topic.length).length) =
        topic := by
      rw [show enc_header ⟨pk0, sig0, links0, 3, ts0⟩ 3
          ++ enc_body (.Topic channel topic) =
        (enc_header ⟨pk0, sig0, links0, 3, ts0⟩ 3
          ++ varint.encodeList channel.length ++ channel
          ++ varint.encodeList topic.length) ++ topic by
        simp [enc_body, List.append_assoc]]
      exact drop_pref _ _ _ (by simp [List.length_append, Nat.add_assoc])
    have h4 : take_string topic topic.length = .ok topic := by
      simpa using take_string_at topic [] topic.length rfl htu
    have hvalt : validate_topic topic = .ok () := by
      rw [validate_topic, if_pos hvt]
    simp only [d1, h1, d2, h2, hval, d3, h3, d4, h4, hvalt]
    simp only [Except.ok.injEq, Prod.mk.injEq]
    constructor
    · simp [enc_body, List.length_append]
      omega
    · trivial
  | Join channel =>
    simp only [Post.counts_ok, Post.post_type, JOIN_POST, Bool.and_eq_true,
      decide_eq_true_eq] at hcounts
    obtain ⟨⟨⟨hnl, _⟩, hts⟩, hcl⟩ := hcounts
    simp only [Post.strings_utf8] at hstrings
    simp only [Post.valid_ok, Bool.and_eq_true, decide_eq_true_eq] at hvalid
    obtain ⟨hv1, hv2⟩ := hvalid
    simp only [Post.post_type, JOIN_POST] at hhdr
    subst hhdr
    rw [Post.from_bytes]
    have hENC : enc_post ⟨⟨pk0, sig0, links0, 4, ts0⟩, .Join channel⟩ =
        enc_header ⟨pk0, sig0, links0, 4, ts0⟩ 4
          ++ enc_body (.Join channel) := by
      simp [enc_post, Post.post_type, JOIN_POST]
    rw [hENC]
    simp only [decode_header_enc ⟨pk0, sig0, links0, 4, ts0⟩ 4
      (enc_body (.Join channel)) hpk hsig hlinks hnl (by norm_num) hts]
    rw [if_neg (by simp [PostHeader.post_type, TEXT_POST])]
    rw [if_neg (by simp [PostHeader.post_type, DELETE_POST])]
    rw [if_neg (by simp [PostHeader.post_type, INFO_POST])]
    rw [if_neg (by simp [PostHeader.post_type, TOPIC_POST])]
    rw [if_pos (by simp [PostHeader.post_type, JOIN_POST])]
    have d1 : (enc_header ⟨pk0, sig0, links0, 4, ts0⟩ 4
        ++ enc_body (.Join channel)).drop
          (enc_header ⟨pk0, sig0, links0, 4, ts0⟩ 4).length =
        enc_body (.Join channel) := drop_pref _ _ _ rfl
    have h1 : varint.decode (enc_body (.Join channel)) =
        .ok ((varint.encodeList channel.length).length, channel.length) := by
      rw [show enc_body (.Join channel) =
        varint.encodeList channel.length ++ channel by simp [enc_body]]
      have := varint.decode_encodeList channel.length channel hcl
      simpa [varint.length] using this
    have d2 : (enc_header ⟨pk0, sig0, links0, 4, ts0⟩ 4
        ++ enc_body (.Join channel)).drop
          ((enc_header ⟨pk0, sig0, links0, 4, ts0⟩ 4).length
            + (varint.encodeList channel.length).length) =
        channel := by
      rw [show enc_header ⟨pk0, sig0, links0, 4, ts0⟩ 4
          ++ enc_body (.Join channel) =
        (enc_header ⟨pk0, sig0, links0, 4, ts0⟩ 4
          ++ varint.encodeList channel.length) ++ channel by
        simp [enc_body, List.append_assoc]]
      exact drop_pref _ _ _ (by simp)
    have h2 : take_string channel channel.length = .ok channel := by
      simpa using take_string_at channel [] channel.length rfl hstrings
    have hval : validate_channel channel = .ok () := by
      rw [validate_channel, if_pos ⟨hv1, hv2⟩]
    simp only [d1, h1, d2, h2, hval]
    simp only [Except.ok.injEq, Prod.mk.injEq]
    constructor
    · simp [enc_body, List.length_append]
      omega
    · trivial
  | Leave channel =>
    simp only [Post.counts_ok, Post.post_type, LEAVE_POST, Bool.and_eq_true,
      decide_eq_true_eq] at hcounts
    obtain ⟨⟨⟨hnl, _⟩, hts⟩, hcl⟩ := hcounts
    simp only [Post.strings_utf8] at hstrings
    simp only [Post.valid_ok, Bool.and_eq_true, decide_eq_true_eq] at hvalid
    obtain ⟨hv1, hv2⟩ := hvalid
    simp only [Post.post_type, LEAVE_POST] at hhdr
    subst hhdr
    rw [Post.from_bytes]
    have hENC : enc_post ⟨⟨pk0, sig0, links0, 5, ts0⟩, .Leave channel⟩ =
        enc_header ⟨pk0, sig0, links0, 5, ts0⟩ 5
          ++ enc_body (.Leave channel) := by
      simp [enc_post, Post.post_type, LEAVE_POST]
    rw [hENC]
    simp only [decode_header_enc ⟨pk0, sig0, links0, 5, ts0⟩ 5
      (enc_body (.Leave channel)) hpk hsig hlinks hnl (by norm_num) hts]
    rw [if_neg (by simp [PostHeader.post_type, TEXT_POST])]
    rw [if_neg (by simp [PostHeader.post_type, DELETE_POST])]
    rw [if_neg (by simp [PostHeader.post_type, INFO_POST])]
    rw [if_neg (by simp [PostHeader.post_type, TOPIC_POST])]
    rw [if_neg (by simp [PostHeader.post_type, JOIN_POST])]
    rw [if_pos (by simp [PostHeader.post_type, LEAVE_POST])]
    have d1 : (enc_header ⟨pk0, sig0, links0, 5, ts0⟩ 5
        ++ enc_body (.Leave channel)).drop
          (enc_header ⟨pk0, sig0, links0, 5, ts0⟩ 5).length =
        enc_body (.Leave channel) := drop_pref _ _ _ rfl
    have h1 : varint.decode (enc_body (.Leave channel)) =
        .ok ((varint.encodeList channel.length).length, channel.length) := by
      rw [show enc_body (.Leave channel) =
        varint.encodeList channel.length ++ channel by simp [enc_body]]
      have := varint.decode_encodeList channel.length channel hcl
      simpa [varint.length] using this
    have d2 : (enc_header ⟨pk0, sig0, links0, 5, ts0⟩ 5
        ++ enc_body (.Leave channel)).drop
          ((enc_header ⟨pk0, sig0, links0, 5, ts0⟩ 5).length
            + (varint.encodeList channel.length).length) =
        channel := by
      rw [show enc_header ⟨pk0, sig0, links0, 5, ts0⟩ 5
          ++ enc_body (.Leave channel) =
        (enc_header ⟨pk0, sig0, links0, 5, ts0⟩ 5
          ++ varint.encodeList channel.length) ++ channel by
        simp [enc_body, List.append_assoc]]
      exact drop_pref _ _ _ (by simp)
    have h2 : take_string channel channel.length = .ok channel := by
      simpa using take_string_at channel [] channel.length rfl hstrings
    have hval : validate_channel channel = .ok () := by
      rw [validate_channel, if_pos ⟨hv1, hv2⟩]
    simp only [d1, h1, d2, h2, hval]
    simp only [Except.ok.injEq, Prod.mk.injEq]
    constructor
    · simp [enc_body, List.length_append]
      omega
    · trivial
  | Unrecognized t => simp [PostBody.recognized] at hrec

theorem take_exact_le (buf : List Nat) (n : Nat) (h : n ≤ buf.length) :
    take_exact buf n = .ok (buf.take n) := by
  unfold take_exact
  rw [if_pos h]

theorem take_exact_panic (buf : List Nat) (n : Nat) (h : buf.length < n) :
    take_exact buf n = .error .Panicked := by
  unfold take_exact
  rw [if_neg (by omega)]

theorem decode_header_short (buf : List Nat) (h : buf.length < 96) :
    decode_header buf = .error .Panicked := by
  rw [decode_header]
  by_cases h1 : 32 ≤ buf.length
  · have e1 := take_exact_le buf 32 h1
    simp only [e1]
    have e2 : take_exact (buf.drop 32) 64 = .error .Panicked :=
      take_exact_panic _ _ (by simp; omega)
    simp only [e2]
  · have e1 : take_exact buf 32 = .error .Panicked :=
      take_exact_panic _ _ (by omega)
    simp only [e1]

theorem varint.decodeAux_ok_le (fuel : Nat) : ∀ (l : List Nat) (c v : Nat),
    varint.decodeAux fuel l = .ok (c, v) → c ≤ l.length := by
  induction fuel with
  | zero =>
    intro l c v h
    cases l with
    | nil => simp [varint.decodeAux] at h
    | cons b r => simp [varint.decodeAux] at h
  | succ f ih =>
    intro l c v h
    cases l with
    | nil => simp [varint.decodeAux] at h
    | cons b r =>
      rw [varint.decodeAux] at h
      split at h
      · simp only [Except.ok.injEq, Prod.mk.injEq] at h
        obtain ⟨h1, -⟩ := h
        simp only [List.length_cons]
        omega
      · split at h
        · rename_i c' v' heq
          simp only [Except.ok.injEq, Prod.mk.injEq] at h
          obtain ⟨h1, -⟩ := h
          have := ih r c' v' heq
          simp only [List.length_cons]
          omega
        · simp at h

theorem varint.decode_ok_le (l : List Nat) (c v : Nat)
    (h : varint.decode l = .ok (c, v)) : c ≤ l.length := by
  rw [varint.decode] at h
  exact varint.decodeAux_ok_le 10 l c v h

theorem varint.decodeAux_err6 (fuel : Nat) : ∀ (l : List Nat) (e : Failure),
    varint.decodeAux fuel l = .error e →
    e = .Truncated ∨ e = .Overflow ∨ e = .MessageHashResponseEnd
      ∨ e = .InvalidUtf8 ∨ e = .ValidationFailed ∨ e = .Panicked := by
  induction fuel with
  | zero =>
    intro l e h
    cases l with
    | nil =>
      simp only [varint.decodeAux, Except.error.injEq] at h
      subst h
      simp
    | cons b r =>
      simp only [varint.decodeAux, Except.error.injEq] at h
      subst h
      simp
  | succ f ih =>
    intro l e h
    cases l with
    | nil =>
      simp only [varint.decodeAux, Except.error.injEq] at h
      subst h
      simp
    | cons b r =>
      rw [varint.decodeAux] at h
      split at h
      · simp at h
      · split at h
        · simp at h
        · rename_i e' heq
          simp only [Except.error.injEq] at h
          subst h
          exact ih r e' heq

theorem varint.decode_err6 (l : List Nat) (e : Failure)
    (h : varint.decode l = .error e) :
    e = .Truncated ∨ e = .Overflow ∨ e = .MessageHashResponseEnd
      ∨ e = .InvalidUtf8 ∨ e = .ValidationFailed ∨ e = .Panicked := by
  rw [varint.decode] at h
  exact varint.decodeAux_err6 10 l e h

theorem take_exact_ok_le (buf : List Nat) (n : Nat) (s : List Nat)
    (h : take_exact buf n = .ok s) : n ≤ buf.length := by
  rw [take_exact] at h
  split at h
  · assumption
  · simp at h

theorem take_exact_err6 (buf : List Nat) (n : Nat) (e : Failure)
    (h : take_exact buf n = .error e) :
    e = .Truncated ∨ e = .Overflow ∨ e = .MessageHashResponseEnd
      ∨ e = .InvalidUtf8 ∨ e = .ValidationFailed ∨ e = .Panicked := by
  rw [take_exact] at h
  split at h
  · simp at h
  · simp only [Except.error.injEq] at h
    subst h
    simp

theorem take_string_ok_le (buf : List Nat) (n : Nat) (s : List Nat)
    (h : take_string buf n = .ok s) : n ≤ buf.length := by
  rw [take_string] at h
  split at h
  · assumption
  · simp at h

theorem take_string_err6 (buf : List Nat) (n : Nat) (e : Failure)
    (h : take_string buf n = .error e) :
    e = .Truncated ∨ e = .Overflow ∨ e = .MessageHashResponseEnd
      ∨ e = .InvalidUtf8 ∨ e = .ValidationFailed ∨ e = .Panicked := by
  rw [take_string] at h
  split at h
  · split at h
    · simp at h
    · simp only [Except.error.injEq] at h
      subst h
      simp
  · simp only [Except.error.injEq] at h
    subst h
    simp

theorem validate_channel_err6 (s : List Nat) (e : Failure)
    (h : validate_channel s = .error e) :
    e = .Truncated ∨ e = .Overflow ∨ e = .MessageHashResponseEnd
      ∨ e = .InvalidUtf8 ∨ e = .ValidationFailed ∨ e = .Panicked := by
  rw [validate_channel] at h
  split at h
  · simp at h
  · simp only [Except.error.injEq] at h
    subst h
    simp

theorem validate_topic_err6 (s : List Nat) (e : Failure)
    (h : validate_topic s = .error e) :
    e = .Truncated ∨ e = .Overflow ∨ e = .MessageHashResponseEnd
      ∨ e = .InvalidUtf8 ∨ e = .ValidationFailed ∨ e = .Panicked := by
  rw [validate_topic] at h
  split at h
  · simp at h
  · simp only [Except.error.injEq] at h
    subst h
    simp

theorem userinfo_name_err6 (val : List Nat) (e : Failure)
    (h : UserInfo.name val = .error e) :
    e = .Truncated ∨ e = .Overflow ∨ e = .MessageHashResponseEnd
      ∨ e = .InvalidUtf8 ∨ e = .ValidationFailed ∨ e = .Panicked := by
  rw [UserInfo.name] at h
  split at h
  · simp at h
  · rename_i e' heq
    simp only [Except.error.injEq] at h
    subst h
    rw [validate_username] at heq
    split at heq
    · simp at heq
    · simp only [Except.error.injEq] at heq
      subst heq
      simp

theorem decode_links_ok_le : ∀ (k : Nat) (l : List Nat) (c : Nat)
    (ls : List (List Nat)), decode_links k l = .ok (c, ls) → c ≤ l.length := by
  intro k
  induction k with
  | zero =>
    intro l c ls h
    rw [decode_links] at h
    simp only [Except.ok.injEq, Prod.mk.injEq] at h
    obtain ⟨h1, -⟩ := h
    omega
  | succ m ih =>
    intro l c ls h
    rw [decode_links] at h
    split at h
    · simp at h
    · split at h
      · simp at h
      · rename_i c' links' heq
        simp only [Except.ok.injEq, Prod.mk.injEq] at h
        obtain ⟨h1, -⟩ := h
        have := ih (l.drop 32) c' links' heq
        simp only [List.length_drop] at this
        omega

theorem decode_links_err6 : ∀ (k : Nat) (l : List Nat) (e : Failure),
    decode_links k l = .error e →
    e = .Truncated ∨ e = .Overflow ∨ e = .MessageHashResponseEnd
      ∨ e = .InvalidUtf8 ∨ e = .ValidationFailed ∨ e = .Panicked := by
  intro k
  induction k with
  | zero =>
    intro l e h
    rw [decode_links] at h
    simp at h
  | succ m ih =>
    intro l e h
    rw [decode_links] at h
    split at h
    · simp only [Except.error.injEq] at h
      subst h
      simp
    · split at h
      · rename_i e' heq
        simp only [Except.error.injEq] at h
        subst h
        exact ih (l.drop 32) e' heq
      · simp at h

theorem decode_info_ok_le (fuel : Nat) : ∀ (l : List Nat) (c : Nat)
    (i : List UserInfo), decode_info fuel l = .ok (c, i) → c ≤ l.length := by
  induction fuel with
  | zero =>
    intro l c i h
    simp [decode_info] at h
  | succ f ih =>
    intro l c i h
    rw [decode_info] at h
    split at h
    · simp at h
    · rename_i s key_len heq1
      have b1 := varint.decode_ok_le _ _ _ heq1
      split at h
      · simp only [Except.ok.injEq, Prod.mk.injEq] at h
        obtain ⟨h1, -⟩ := h
        omega
      · split at h
        · simp at h
        · rename_i key heq2
          have b2 := take_string_ok_le _ _ _ heq2
          split at h
          · simp at h
          · rename_i s2 val_len heq3
            have b3 := varint.decode_ok_le _ _ _ heq3
            split at h
            · simp at h
            · rename_i val heq4
              have b4 := take_string_ok_le _ _ _ heq4
              split at h
              · simp at h
              · split at h
                · simp at h
                · rename_i c' info' heq5
                  simp only [Except.ok.injEq, Prod.mk.injEq] at h
                  obtain ⟨h1, -⟩ := h
                  have b5 := ih _ c' info' heq5
                  simp only [List.length_drop] at b2 b3 b4 b5
                  omega

theorem decode_info_err6 (fuel : Nat) : ∀ (l : List Nat) (e : Failure),
    decode_info fuel l = .error e →
    e = .Truncated ∨ e = .Overflow ∨ e = .MessageHashResponseEnd
      ∨ e = .InvalidUtf8 ∨ e = .ValidationFailed ∨ e = .Panicked := by
  induction fuel with
  | zero =>
    intro l e h
    simp only [decode_info, Except.error.injEq] at h
    subst h
    simp
  | succ f ih =>
    intro l e h
    rw [decode_info] at h
    split at h
    · rename_i e' heq
      simp only [Except.error.injEq] at h
      subst h
      exact varint.decode_err6 _ _ heq
    · rename_i s key_len heq1
      split at h
      · simp at h
      · split at h
        · rename_i e' heq
          simp only [Except.error.injEq] at h
          subst h
          exact take_string_err6 _ _ _ heq
        · rename_i key heq2
          split at h
          · rename_i e' heq
            simp only [Except.error.injEq] at h
            subst h
            exact varint.decode_err6 _ _ heq
          · rename_i s2 val_len heq3
            split at h
            · rename_i e' heq
              simp only [Except.error.injEq] at h
              subst h
              exact take_string_err6 _ _ _ heq
            · rename_i val heq4
              split at h
              · rename_i e' heq
                simp only [Except.error.injEq] at h
                subst h
                split at heq
                · exact userinfo_name_err6 _ _ heq
                · simp at heq
              · split at h
                · rename_i e' heq
                  simp only [Except.error.injEq] at h
                  subst h
                  exact ih _ e' heq
                · simp at h

theorem decode_header_ok_le (buf : List Nat) (n : Nat) (hd : PostHeader)
    (h : decode_header buf = .ok (n, hd)) : n ≤ buf.length := by
  rw [decode_header] at h
  split at h
  · simp at h
  · rename_i public_key heq1
    have b1 := take_exact_ok_le _ _ _ heq1
    split at h
    · simp at h
    · rename_i signature heq2
      have b2 := take_exact_ok_le _ _ _ heq2
      split at h
      · simp at h
      · rename_i s1 num_links heq3
        have b3 := varint.decode_ok_le _ _ _ heq3
        split at h
        · simp at h
        · rename_i c links heq4
          have b4 := decode_links_ok_le _ _ _ _ heq4
          split at h
          · simp at h
          · rename_i s2 post_type heq5
            have b5 := varint.decode_ok_le _ _ _ heq5
            split at h
            · simp at h
            · rename_i s3 timestamp heq6
              have b6 := varint.decode_ok_le _ _ _ heq6
              simp only [Except.ok.injEq, Prod.mk.injEq] at h
              obtain ⟨h1, -⟩ := h
              simp only [List.length_drop] at b2 b3 b4 b5 b6
              omega

theorem decode_header_err6 (buf : List Nat) (e : Failure)
    (h : decode_header buf = .error e) :
    e = .Truncated ∨ e = .Overflow ∨ e = .MessageHashResponseEnd
      ∨ e = .InvalidUtf8 ∨ e = .ValidationFailed ∨ e = .Panicked := by
  rw [decode_header] at h
  split at h
  · rename_i e' heq
    simp only [Except.error.injEq] at h
    subst h
    exact take_exact_err6 _ _ _ heq
  · rename_i public_key heq1
    split at h
    · rename_i e' heq
      simp only [Except.error.injEq] at h
      subst h
      exact take_exact_err6 _ _ _ heq
    · rename_i signature heq2
      split at h
      · rename_i e' heq
        simp only [Except.error.injEq] at h
        subst h
        exact varint.decode_err6 _ _ heq
      · rename_i s1 num_links heq3
        split at h
        · rename_i e' heq
          simp only [Except.error.injEq] at h
          subst h
          exact decode_links_err6 _ _ _ heq
        · rename_i c links heq4
          split at h
          · rename_i e' heq
            simp only [Except.error.injEq] at h
            subst h
            exact varint.decode_err6 _ _ heq
          · rename_i s2 post_type heq5
            split at h
            · rename_i e' heq
              simp only [Except.error.injEq] at h
              subst h
              exact varint.decode_err6 _ _ heq
            · simp at h

theorem from_bytes_ok_le (buf : List Nat) (n : Nat) (p : Post)
    (h : Post.from_bytes buf = .ok (n, p)) : n ≤ buf.length := by
  rw [Post.from_bytes] at h
  split at h
  · simp at h
  · rename_i n0 header heq0
    have b0 := decode_header_ok_le _ _ _ heq0
    split at h
    · split at h
      · simp at h
      · rename_i s channel_len heq1
        have b1 := varint.decode_ok_le _ _ _ heq1
        split at h
        · simp at h
        · rename_i channel heq2
          have b2 := take_string_ok_le _ _ _ heq2
          split at h
          · simp at h
          · split at h
            · simp at h
            · rename_i s2 text_len heq3
              have b3 := varint.decode_ok_le _ _ _ heq3
              split at h
              · simp at h
              · rename_i text heq4
                have b4 := take_string_ok_le _ _ _ heq4
                simp only [Except.ok.injEq, Prod.mk.injEq] at h
                obtain ⟨h1, -⟩ := h
                simp only [List.length_drop] at b1 b2 b3 b4
                omega
    · split at h
      · split at h
        · simp at h
        · rename_i s num_hashes heq1
          have b1 := varint.decode_ok_le _ _ _ heq1
          split at h
          · simp at h
          · rename_i c hashes heq2
            have b2 := decode_links_ok_le _ _ _ _ heq2
            simp only [Except.ok.injEq, Prod.mk.injEq] at h
            obtain ⟨h1, -⟩ := h
            simp only [List.length_drop] at b1 b2
            omega
      · split at h
        · split at h
          · simp at h
          · rename_i c info heq1
            have b1 := decode_info_ok_le _ _ _ _ heq1
            simp only [Except.ok.injEq, Prod.mk.injEq] at h
            obtain ⟨h1, -⟩ := h
            simp only [List.length_drop] at b1
            omega
        · split at h
          · split at h
            · simp at h
            · rename_i s channel_len heq1
              have b1 := varint.decode_ok_le _ _ _ heq1
              split at h
              · simp at h
              · rename_i channel heq2
                have b2 := take_string_ok_le _ _ _ heq2
                split at h
                · simp at h
                · split at h
                  · simp at h
                  · rename_i s2 topic_len heq3
                    have b3 := varint.decode_ok_le _ _ _ heq3
                    split at h
                    · simp at h
                    · rename_i topic heq4
                      have b4 := take_string_ok_le _ _ _ heq4
                      split at h
                      · simp at h
                      · simp only [Except.ok.injEq, Prod.mk.injEq] at h
                        obtain ⟨h1, -⟩ := h
                        simp only [List.length_drop] at b1 b2 b3 b4
                        omega
          · split at h
            · split at h
              · simp at h
              · rename_i s channel_len heq1
                have b1 := varint.decode_ok_le _ _ _ heq1
                split at h
                · simp at h
                · rename_i channel heq2
                  have b2 := take_string_ok_le _ _ _ heq2
                  split at h
                  · simp at h
                  · simp only [Except.ok.injEq, Prod.mk.injEq] at h
                    obtain ⟨h1, -⟩ := h
                    simp only [List.length_drop] at b1 b2
                    omega
            · split at h
              · split at h
                · simp at h
                · rename_i s channel_len heq1
                  have b1 := varint.decode_ok_le _ _ _ heq1
                  split at h
                  · simp at h
                  · rename_i channel heq2
                    have b2 := take_string_ok_le _ _ _ heq2
                    split at h
                    · simp at h
                    · simp only [Except.ok.injEq, Prod.mk.injEq] at h
                      obtain ⟨h1, -⟩ := h
                      simp only [List.length_drop] at b1 b2
                      omega
              · simp only [Except.ok.injEq, Prod.mk.injEq] at h
                obtain ⟨h1, -⟩ := h
                omega

theorem from_bytes_err6 (buf : List Nat) (e : Failure)
    (h : Post.from_bytes buf = .error e) :
    e = .Truncated ∨ e = .Overflow ∨ e = .MessageHashResponseEnd
      ∨ e = .InvalidUtf8 ∨ e = .ValidationFailed ∨ e = .Panicked := by
  rw [Post.from_bytes] at h
  split at h
  · rename_i e' heq
    simp only [Except.error.injEq] at h
    subst h
    exact decode_header_err6 _ _ heq
  · rename_i n0 header heq0
    split at h
    · split at h
      · rename_i e' heq
        simp only [Except.error.injEq] at h
        subst h
        exact varint.decode_err6 _ _ heq
      · rename_i s channel_len heq1
        split at h
        · rename_i e' heq
          simp only [Except.error.injEq] at h
          subst h
          exact take_string_err6 _ _ _ heq
        · rename_i channel heq2
          split at h
          · rename_i e' heq
            simp only [Except.error.injEq] at h
            subst h
            exact validate_channel_err6 _ _ heq
          · split at h
            · rename_i e' heq
              simp only [Except.error.injEq] at h
              subst h
              exact varint.decode_err6 _ _ heq
            · rename_i s2 text_len heq3
              split at h
              · rename_i e' heq
                simp only [Except.error.injEq] at h
                subst h
                exact take_string_err6 _ _ _ heq
              · simp at h
    · split at h
      · split at h
        · rename_i e' heq
          simp only [Except.error.injEq] at h
          subst h
          exact varint.decode_err6 _ _ heq
        · rename_i s num_hashes heq1
          split at h
          · rename_i e' heq
            simp only [Except.error.injEq] at h
            subst h
            exact decode_links_err6 _ _ _ heq
          · simp at h
      · split at h
        · split at h
          · rename_i e' heq
            simp only [Except.error.injEq] at h
            subst h
            exact decode_info_err6 _ _ _ heq
          · simp at h
        · split at h
          · split at h
            · rename_i e' heq
              simp only [Except.error.injEq] at h
              subst h
              exact varint.decode_err6 _ _ heq
            · rename_i s channel_len heq1
              split at h
              · rename_i e' heq
                simp only [Except.error.injEq] at h
                subst h
                exact take_string_err6 _ _ _ heq
              · rename_i channel heq2
                split at h
                · rename_i e' heq
                  simp only [Except.error.injEq] at h
                  subst h
                  exact validate_channel_err6 _ _ heq
                · split at h
                  · rename_i e' heq
                    simp only [Except.error.injEq] at h
                    subst h
                    exact varint.decode_err6 _ _ heq
                  · rename_i s2 topic_len heq3
                    split at h
                    · rename_i e' heq
                      simp only [Except.error.injEq] at h
                      subst h
                      exact take_string_err6 _ _ _ heq
                    · rename_i topic heq4
                      split at h
                      · rename_i e' heq
                        simp only [Except.error.injEq] at h
                        subst h
                        exact validate_topic_err6 _ _ heq
                      · simp at h
          · split at h
            · split at h
              · rename_i e' heq
                simp only [Except.error.injEq] at h
                subst h
                exact varint.decode_err6 _ _ heq
              · rename_i s channel_len heq1
                split at h
                · rename_i e' heq
                  simp only [Except.error.injEq] at h
                  subst h
                  exact take_string_err6 _ _ _ heq
                · rename_i channel heq2
                  split at h
                  · rename_i e' heq
                    simp only [Except.error.injEq] at h
                    subst h
                    exact validate_channel_err6 _ _ heq
                  · simp at h
            · split at h
              · split at h
                · rename_i e' heq
                  simp only [Except.error.injEq] at h
                  subst h
                  exact varint.decode_err6 _ _ heq
                · rename_i s channel_len heq1
                  split at h
                  · rename_i e' heq
                    simp only [Except.error.injEq] at h
                    subst h
                    exact take_string_err6 _ _ _ heq
                  · rename_i channel heq2
                    split at h
                    · rename_i e' heq
                      simp only [Except.error.injEq] at h
                      subst h
                      exact validate_channel_err6 _ _ heq
                    · simp at h
              · simp at h

theorem varint.decodeAux_all_high : ∀ (hs : List Nat) (fuel : Nat),
    (∀ b ∈ hs, 128 ≤ b) → hs.length < fuel →
    varint.decodeAux fuel hs = .error .Truncated := by
  intro hs
  induction hs with
  | nil =>
    intro fuel _ _
    cases fuel <;> rfl
  | cons b r ih =>
    intro fuel hhigh hlen
    cases fuel with
    | zero => simp at hlen
    | succ f =>
      rw [varint.decodeAux]
      rw [if_neg (by have := hhigh b (List.mem_cons_self b r); omega)]
      have hr := ih f (fun x hx => hhigh x (List.mem_cons_of_mem b hx))
        (by simp only [List.length_cons] at hlen; omega)
      simp only [hr]

theorem varint.decode_low (k : Nat) (r : List Nat) (hk : k < 128) :
    varint.decode (k :: r) = .ok (1, k) := by
  rw [varint.decode]
  show varint.decodeAux (9 + 1) (k :: r) = .ok (1, k)
  rw [varint.decodeAux]
  exact if_pos hk

theorem decode_links_short : ∀ (k : Nat) (l : List Nat), 1 ≤ k →
    l.length < 32 * k → decode_links k l = .error .MessageHashResponseEnd := by
  intro k
  induction k with
  | zero =>
    intro l h1 _
    exact absurd h1 (by omega)
  | succ m ih =>
    intro l _ hlen
    rw [decode_links]
    by_cases hl : l.length < 32
    · rw [if_pos hl]
    · rw [if_neg hl]
      have hrec := ih (l.drop 32) (by omega)
        (by simp only [List.length_drop]; omega)
      simp only [hrec]

theorem from_bytes_varint_trunc (pre hs : List Nat) (hpre : pre.length = 96)
    (hlen : hs.length ≤ 9) (hhigh : ∀ b ∈ hs, 128 ≤ b) :
    Post.from_bytes (pre ++ hs) = .error .Truncated := by
  rw [Post.from_bytes, decode_header]
  have e1 := take_exact_le (pre ++ hs) 32
    (by simp only [List.length_append, hpre]; omega)
  have e2 := take_exact_le ((pre ++ hs).drop 32) 64
    (by simp only [List.length_drop, List.length_append, hpre]; omega)
  have e3 : (pre ++ hs).drop 96 = hs := drop_pref pre hs 96 hpre
  have e4 : varint.decode hs = .error .Truncated := by
    rw [varint.decode]
    exact varint.decodeAux_all_high hs 10 hhigh (by omega)
  simp only [e1, e2, e3, e4]

theorem from_bytes_links_short (pre r : List Nat) (k : Nat)
    (hpre : pre.length = 96) (hk1 : 1 ≤ k) (hk2 : k < 128)
    (hr : r.length < 32 * k) :
    Post.from_bytes (pre ++ k :: r) = .error .MessageHashResponseEnd := by
  rw [Post.from_bytes, decode_header]
  have e1 := take_exact_le (pre ++ k :: r) 32
    (by simp only [List.length_append, List.length_cons, hpre]; omega)
  have e2 := take_exact_le ((pre ++ k :: r).drop 32) 64
    (by simp only [List.length_drop, List.length_append, List.length_cons,
      hpre]; omega)
  have e3 : (pre ++ k :: r).drop 96 = k :: r := drop_pref pre _ 96 hpre
  have e4 : varint.decode (k :: r) = .ok (1, k) := varint.decode_low k r hk2
  have e5 : (pre ++ k :: r).drop (96 + 1) = r := by
    rw [List.append_cons]
    exact drop_pref (pre ++ [k]) r (96 + 1) (by simp [hpre])
  have e6 : decode_links k r = .error .MessageHashResponseEnd :=
    decode_links_short k r hk1 hr
  simp only [e1, e2, e3, e4, e5, e6]

theorem from_bytes_string_overrun (pre r : List Nat) (cl : Nat)
    (hpre : pre.length = 96) (hcl2 : cl < 128) (hr : r.length < cl) :
    Post.from_bytes (pre ++ 0 :: 0 :: 0 :: cl :: r) = .error .Panicked := by
  rw [Post.from_bytes, decode_header]
  have e1 := take_exact_le (pre ++ 0 :: 0 :: 0 :: cl :: r) 32
    (by simp only [List.length_append, List.length_cons, hpre]; omega)
  have e2 := take_exact_le ((pre ++ 0 :: 0 :: 0 :: cl :: r).drop 32) 64
    (by simp only [List.length_drop, List.length_append, List.length_cons,
      hpre]; omega)
  have e3 : (pre ++ 0 :: 0 :: 0 :: cl :: r).drop 96 = 0 :: 0 :: 0 :: cl :: r :=
    drop_pref pre _ 96 hpre
  have e4 : varint.decode (0 :: 0 :: 0 :: cl :: r) = .ok (1, 0) :=
    varint.decode_low 0 _ (by omega)
  have e5 : ∀ x : List Nat, decode_links 0 x = .ok (0, []) := fun _ => rfl
  have e6 : (pre ++ 0 :: 0 :: 0 :: cl :: r).drop (96 + 1 + 0) =
      0 :: 0 :: cl :: r := by
    rw [show 96 + 1 + 0 = pre.length + 1 by omega, drop_append_plus]
    simp
  have e7 : varint.decode (0 :: 0 :: cl :: r) = .ok (1, 0) :=
    varint.decode_low 0 _ (by omega)
  have e8 : (pre ++ 0 :: 0 :: 0 :: cl :: r).drop (96 + 1 + 0 + 1) =
      0 :: cl :: r := by
    rw [show 96 + 1 + 0 + 1 = pre.length + 2 by omega, drop_append_plus]
    simp
  have e9 : varint.decode (0 :: cl :: r) = .ok (1, 0) :=
    varint.decode_low 0 _ (by omega)
  simp only [e1, e2, e3, e4, e5, e6, e7, e8, e9]
  rw [if_pos (show (0 : Nat) = TEXT_POST from rfl)]
  have e10 : (pre ++ 0 :: 0 :: 0 :: cl :: r).drop (96 + 1 + 0 + 1 + 1) =
      cl :: r := by
    rw [show 96 + 1 + 0 + 1 + 1 = pre.length + 3 by omega, drop_append_plus]
    simp
  have e11 : varint.decode (cl :: r) = .ok (1, cl) :=
    varint.decode_low cl r hcl2
  simp only [e10, e11]
  have e12 : (pre ++ 0 :: 0 :: 0 :: cl :: r).drop (96 + 1 + 0 + 1 + 1 + 1) =
      r := by
    rw [show 96 + 1 + 0 + 1 + 1 + 1 = pre.length + 4 by omega,
      drop_append_plus]
    simp
  have e13 : take_string r cl = .error .Panicked := by
    rw [take_string]
    rw [if_neg (by omega : ¬ cl ≤ r.length)]
  simp only [e12, e13]

/-- C4 (amended): truncation behaviour of `Post::from_bytes`, for every
input buffer: (i) on success the returned byte count never exceeds the
buffer length, so the decoder never succeeds after a read past the end of
`src`; (ii) a buffer shorter than the unguarded 96-byte
public-key-plus-signature head panics (index out of range) instead of
returning `Truncated`; (iii) every failure is `Truncated`, `Overflow`,
`MessageHashResponseEnd`, `InvalidUtf8`, `ValidationFailed` or a panic —
never any other kind; and after an arbitrary 96-byte head, (iv) a varint
made of continuation bytes and cut off before its final byte fails
`Truncated`, (v) a hash count promising more 32-byte hashes than the bytes
that remain fails with the `MessageHashResponseEnd` truncation error, and
(vi) a text post whose channel length exceeds the remaining bytes panics. -/
theorem c4_truncation_amended (buf : List Nat) :
    (∀ n p, Post.from_bytes buf = .ok (n, p) → n ≤ buf.length)
    ∧ (buf.length < 96 → Post.from_bytes buf = .error .Panicked)
    ∧ (∀ e, Post.from_bytes buf = .error e →
        e = .Truncated ∨ e = .Overflow ∨ e = .MessageHashResponseEnd
          ∨ e = .InvalidUtf8 ∨ e = .ValidationFailed ∨ e = .Panicked)
    ∧ (∀ pre hs, pre.length = 96 → hs.length ≤ 9 → (∀ b ∈ hs, 128 ≤ b) →
        Post.from_bytes (pre ++ hs) = .error .Truncated)
    ∧ (∀ pre k r, pre.length = 96 → 1 ≤ k → k < 128 → r.length < 32 * k →
        Post.from_bytes (pre ++ k :: r) = .error .MessageHashResponseEnd)
    ∧ (∀ pre cl r, pre.length = 96 → cl < 128 → r.length < cl →
        Post.from_bytes (pre ++ 0 :: 0 :: 0 :: cl :: r) =
          .error .Panicked) := by
  refine ⟨fun n p h => from_bytes_ok_le buf n p h, fun h => ?_,
    fun e h => from_bytes_err6 buf e h,
    fun pre hs h1 h2 h3 => from_bytes_varint_trunc pre hs h1 h2 h3,
    fun pre k r h1 h2 h3 h4 => from_bytes_links_short pre r k h1 h2 h3 h4,
    fun pre cl r h1 h2 h3 => from_bytes_string_overrun pre r cl h1 h2 h3⟩
  rw [Post.from_bytes]
  simp only [decode_header_short buf h]

/-- C4 witness: the universal truncation statement instantiated at concrete
buffers — a decodable 99-byte buffer for the success bound, the empty
buffer for the short-head panic, the all-zero 96-byte head followed by a
lone continuation byte, by a hash count of one with no hashes, and by a
zero-link text post whose channel length 5 has no bytes behind it. -/
theorem c4_truncation_amended_witness :
    (99 : Nat) ≤ (List.replicate 96 0 ++ [0, 6, 0]).length
    ∧ Post.from_bytes ([] : List Nat) = .error .Panicked
    ∧ (Failure.Truncated = .Truncated ∨ Failure.Truncated = .Overflow
        ∨ Failure.Truncated = .MessageHashResponseEnd
        ∨ Failure.Truncated = .InvalidUtf8
        ∨ Failure.Truncated = .ValidationFailed
        ∨ Failure.Truncated = .Panicked)
    ∧ Post.from_bytes (List.replicate 96 0 ++ [130]) = .error .Truncated
    ∧ Post.from_bytes (List.replicate 96 0 ++ [1]) =
        .error .MessageHashResponseEnd
    ∧ Post.from_bytes (List.replicate 96 0 ++ [0, 0, 0, 5]) =
        .error .Panicked := by
  refine ⟨(c4_truncation_amended (List.replicate 96 0 ++ [0, 6, 0])).1 99
      ⟨⟨List.replicate 32 0, List.replicate 64 0, [], 6, 0⟩, .Unrecognized 6⟩
      (by decide),
    (c4_truncation_amended []).2.1 (by decide),
    (c4_truncation_amended (List.replicate 96 0)).2.2.1 .Truncated (by decide),
    (c4_truncation_amended []).2.2.2.1 (List.replicate 96 0) [130]
      (by decide) (by decide) (by decide),
    (c4_truncation_amended []).2.2.2.2.1 (List.replicate 96 0) 1 []
      (by decide) (by decide) (by decide) (by decide),
    (c4_truncation_amended []).2.2.2.2.2 (List.replicate 96 0) 5 []
      (by decide) (by decide) (by decide)⟩

/-- C4 counterexample: on a 10-byte buffer the claim promises a `Truncated`
error, but `Post::from_bytes` reads `buf[0..32]` with no bounds check and
panics (index out of range) instead. -/
theorem c4_truncation_counterexample :
    Post.from_bytes (List.replicate 10 0) = .error .Panicked
    ∧ Failure.Panicked ≠ Failure.Truncated := by
  constructor
  · have h := decode_header_short (List.replicate 10 0) (by simp)
    rw [Post.from_bytes]
    simp only [h]
  · decide

/-- C1 (amended): for every post with a recognized body, the Rust type
invariants (32-byte key, 64-byte signature and hashes, 64-bit counts, UTF-8
strings), a header tag matching the body tag, the section-3 validation rules
satisfied, and — the amendment forced by the counterexample — every Info
entry key non-empty, decoding the encoding round-trips:
`from_bytes (to_bytes p)` succeeds with exactly the encoded length and a
post structurally equal to `p`. -/
theorem c1_round_trip_amended (p : Post)
    (hpk : p.header.public_key.length = 32)
    (hsig : p.header.signature.length = 64)
    (hlinks : ∀ l ∈ p.header.links, l.length = 32)
    (hdel : ∀ hs, p.body = .Delete hs → ∀ l ∈ hs, l.length = 32)
    (hrec : p.body.recognized = true)
    (hcounts : p.counts_ok = true)
    (hstrings : p.strings_utf8 = true)
    (hvalid : p.valid_ok = true)
    (hkeys : p.info_keys_nonempty = true)
    (hhdr : p.header.post_type = p.post_type) :
    ∃ bs, p.to_bytes = .ok bs ∧ Post.from_bytes bs = .ok (bs.length, p) :=
  ⟨enc_post p, to_bytes_ok p hpk hsig hlinks hdel hrec,
    from_bytes_enc p hpk hsig hlinks hdel hrec hcounts hstrings hvalid
      hkeys hhdr⟩

/-- C1 witness: the round trip at the concrete join post. -/
theorem c1_round_trip_amended_witness :
    ∃ bs, Post.to_bytes sample_post = .ok bs
      ∧ Post.from_bytes bs = .ok (bs.length, sample_post) :=
  c1_round_trip_amended sample_post (by decide) (by decide) (by decide)
    (fun _ h => PostBody.noConfusion h) (by decide) (by decide) (by decide)
    (by decide) (by decide) (by decide)

/-- C1 counterexample: `c1cex_post` has a recognized body, a matching header
tag and satisfies every validation rule of section 3 (its entry key is not
`"name"`, so no user-name rule applies), yet `from_bytes (to_bytes p)`
consumes only 100 of the 103 encoded bytes and returns an empty Info list,
not the original post. -/
theorem c1_round_trip_counterexample :
    c1cex_post.body.recognized = true
    ∧ c1cex_post.header.post_type = c1cex_post.post_type
    ∧ c1cex_post.valid_ok = true
    ∧ Post.to_bytes c1cex_post = .ok c1cex_bytes
    ∧ Post.from_bytes c1cex_bytes ≠
        .ok (c1cex_bytes.length, c1cex_post) := by
  have he0 : varint.encodeList 0 = [0] := by rw [varint.encodeList]; simp
  have he1 : varint.encodeList 1 = [1] := by rw [varint.encodeList]; simp
  have he2 : varint.encodeList 2 = [2] := by rw [varint.encodeList]; simp
  have hrep : List.replicate 96 (0 : Nat) =
      List.replicate 32 0 ++ List.replicate 64 0 := by
    rw [← List.replicate_add]
  have hEnc : enc_post c1cex_post = c1cex_bytes := by
    simp [c1cex_post, c1cex_bytes, enc_post, enc_header, enc_body, enc_info,
      enc_entry, Post.post_type, INFO_POST, he0, he1, he2, hrep]
  refine ⟨by decide, by decide, by decide, ?_, by decide⟩
  rw [to_bytes_ok c1cex_post (by decide) (by decide) (by decide)
    (fun _ h => by simp [c1cex_post] at h) (by decide), hEnc]

/-- C2: for every post with a recognized body (and the Rust type invariants
on key, signature and hash sizes), `to_bytes` succeeds with exactly
`count_bytes` bytes, and `write_bytes` into any buffer of at least
`count_bytes` bytes returns exactly `count_bytes` as the written count. -/
theorem c2_count_bytes_exact (p : Post)
    (hpk : p.header.public_key.length = 32)
    (hsig : p.header.signature.length = 64)
    (hlinks : ∀ l ∈ p.header.links, l.length = 32)
    (hdel : ∀ hs, p.body = .Delete hs → ∀ l ∈ hs, l.length = 32)
    (hrec : p.body.recognized = true) :
    (∃ bs, p.to_bytes = .ok bs ∧ bs.length = p.count_bytes)
    ∧ ∀ buf : List Nat, p.count_bytes ≤ buf.length →
        ∃ out, p.write_bytes buf = .ok (p.count_bytes, out) := by
  constructor
  · exact ⟨enc_post p, to_bytes_ok p hpk hsig hlinks hdel hrec,
      enc_post_length p hpk hsig hlinks hdel⟩
  · intro buf hlen
    exact ⟨_, write_bytes_ok p buf hpk hsig hlinks hdel hrec hlen⟩

/-- C2 witness: the exact-size statement at the concrete join post, writing
into a buffer of exactly `count_bytes` zeros. -/
theorem c2_count_bytes_exact_witness :
    (∃ bs, Post.to_bytes sample_post = .ok bs
      ∧ bs.length = sample_post.count_bytes)
    ∧ ∃ out, Post.write_bytes sample_post
        (List.replicate sample_post.count_bytes 0) =
        .ok (sample_post.count_bytes, out) :=
  ⟨(c2_count_bytes_exact sample_post (by decide) (by decide) (by decide)
      (fun _ h => PostBody.noConfusion h) (by decide)).1,
   (c2_count_bytes_exact sample_post (by decide) (by decide) (by decide)
      (fun _ h => PostBody.noConfusion h) (by decide)).2
      (List.replicate sample_post.count_bytes 0) (by simp)⟩

/-- C5: for every post whose body is `Unrecognized`, `write_bytes` (into any
buffer of at least `count_bytes` bytes) and therefore `to_bytes` fail with
`PostWriteUnrecognizedType` carrying the unknown tag, while `count_bytes`
still returns the header-only size: 32 + 64 + the varint length of the link
count + 32 per link + the varint lengths of the post type and timestamp,
with zero body bytes. -/
theorem c5_unrecognized_write (p : Post) (t : Nat)
    (hb : p.body = .Unrecognized t)
    (hpk : p.header.public_key.length = 32)
    (hsig : p.header.signature.length = 64)
    (hlinks : ∀ l ∈ p.header.links, l.length = 32) :
    p.to_bytes = .error (.PostWriteUnrecognizedType t)
    ∧ (∀ buf : List Nat, p.count_bytes ≤ buf.length →
        p.write_bytes buf = .error (.PostWriteUnrecognizedType t))
    ∧ p.count_bytes = 32 + 64 + varint.length p.header.links.length
        + p.header.links.length * 32 + varint.length t
        + varint.length p.header.timestamp := by
  have hdel : ∀ hs, p.body = .Delete hs → ∀ l ∈ hs, l.length = 32 := by
    intro hs h
    rw [hb] at h
    cases h
  have hEL : (enc_post p).length = p.count_bytes :=
    enc_post_length p hpk hsig hlinks hdel
  have hHL : (enc_header p.header p.post_type).length = p.count_bytes := by
    rw [← hEL]
    simp [enc_post, hb, enc_body]
  have hw : ∀ buf : List Nat, p.count_bytes ≤ buf.length →
      p.write_bytes buf = .error (.PostWriteUnrecognizedType t) := by
    intro buf hlen
    rw [Post.write_bytes, hb]
    simp only [write_header_ok p.header p.post_type buf hpk hsig hlinks
      (by omega), write_body]
  refine ⟨?_, hw, ?_⟩
  · rw [Post.to_bytes]
    rw [hw (List.replicate p.count_bytes 0) (by simp)]
  · simp [Post.count_bytes, Post.post_type, hb]

/-- C5 witness: the statement at a concrete post with unknown tag 7, no
links, and timestamp 80, writing into a buffer of exactly `count_bytes`
zeros. -/
theorem c5_unrecognized_write_witness :
    Post.to_bytes unrec_post = .error (.PostWriteUnrecognizedType 7)
    ∧ Post.write_bytes unrec_post
        (List.replicate unrec_post.count_bytes 0) =
        .error (.PostWriteUnrecognizedType 7)
    ∧ unrec_post.count_bytes = 32 + 64 + varint.length 0 + 0 * 32
        + varint.length 7 + varint.length 80 := by
  have h := c5_unrecognized_write unrec_post 7 rfl (by decide) (by decide)
    (by decide)
  refine ⟨h.1, h.2.1 _ (by simp), ?_⟩
  have h3 := h.2.2
  simpa [unrec_post] using h3

/-- C6: whenever the header of a buffer decodes successfully and its tag is
none of 0 through 5, `from_bytes` succeeds with an `Unrecognized` body
carrying that tag and reports exactly the header's byte count as consumed,
reading no body bytes. -/
theorem c6_unrecognized_decode (buf : List Nat) (n : Nat)
    (hdr : PostHeader) (h : decode_header buf = .ok (n, hdr))
    (ht : hdr.post_type ∉ ([0, 1, 2, 3, 4, 5] : List Nat)) :
    Post.from_bytes buf = .ok (n, ⟨hdr, .Unrecognized hdr.post_type⟩) := by
  simp only [List.mem_cons, List.mem_singleton, not_or] at ht
  obtain ⟨h0, h1, h2, h3, h4, h5⟩ := ht
  rw [Post.from_bytes]
  simp only [h]
  rw [if_neg (by simpa [TEXT_POST] using h0)]
  rw [if_neg (by simpa [DELETE_POST] using h1)]
  rw [if_neg (by simpa [INFO_POST] using h2)]
  rw [if_neg (by simpa [TOPIC_POST] using h3)]
  rw [if_neg (by simpa [JOIN_POST] using h4)]
  rw [if_neg (by simpa [LEAVE_POST] using h5)]

/-- C6 witness: the all-zero header with zero links, tag 6 and timestamp 0
decodes to an `Unrecognized` post consuming exactly the 99 header bytes. -/
theorem c6_unrecognized_decode_witness :
    Post.from_bytes (List.replicate 96 0 ++ [0, 6, 0]) =
      .ok (99, ⟨⟨List.replicate 32 0, List.replicate 64 0, [], 6, 0⟩,
        .Unrecognized 6⟩) :=
  c6_unrecognized_decode (List.replicate 96 0 ++ [0, 6, 0]) 99
    ⟨List.replicate 32 0, List.replicate 64 0, [], 6, 0⟩
    (by decide) (by decide)

/-- C10: serialization derives the wire tag via `Post::post_type` from the
body alone and never reads the header's `post_type` field, so two posts
differing only in that field have the same tag, the same byte count, the
same `write_bytes` behaviour on every buffer, and identical `to_bytes`
output. -/
theorem c10_post_type_from_body (pk sig : List Nat)
    (links : List (List Nat)) (pt pt2 ts : Nat) (b : PostBody)
    (buf : List Nat) (hrec : b.recognized = true) :
    Post.post_type ⟨⟨pk, sig, links, pt, ts⟩, b⟩ =
      Post.post_type ⟨⟨pk, sig, links, pt2, ts⟩, b⟩
    ∧ Post.count_bytes ⟨⟨pk, sig, links, pt, ts⟩, b⟩ =
      Post.count_bytes ⟨⟨pk, sig, links, pt2, ts⟩, b⟩
    ∧ Post.write_bytes ⟨⟨pk, sig, links, pt, ts⟩, b⟩ buf =
      Post.write_bytes ⟨⟨pk, sig, links, pt2, ts⟩, b⟩ buf
    ∧ Post.to_bytes ⟨⟨pk, sig, links, pt, ts⟩, b⟩ =
      Post.to_bytes ⟨⟨pk, sig, links, pt2, ts⟩, b⟩ := by
  cases b <;> exact ⟨rfl, rfl, rfl, rfl⟩

/-- C10 witness: two join posts whose headers carry the (wrong) tags 9 and
42 have the same tag, size and serialization. -/
theorem c10_post_type_from_body_witness :
    Post.post_type ⟨⟨[], [], [], 9, 80⟩, .Join [97]⟩ =
      Post.post_type ⟨⟨[], [], [], 42, 80⟩, .Join [97]⟩
    ∧ Post.count_bytes ⟨⟨[], [], [], 9, 80⟩, .Join [97]⟩ =
      Post.count_bytes ⟨⟨[], [], [], 42, 80⟩, .Join [97]⟩
    ∧ Post.write_bytes ⟨⟨[], [], [], 9, 80⟩, .Join [97]⟩ [] =
      Post.write_bytes ⟨⟨[], [], [], 42, 80⟩, .Join [97]⟩ []
    ∧ Post.to_bytes ⟨⟨[], [], [], 9, 80⟩, .Join [97]⟩ =
      Post.to_bytes ⟨⟨[], [], [], 42, 80⟩, .Join [97]⟩ :=
  c10_post_type_from_body [] [] [] 9 42 80 (.Join [97]) [] (by decide)

/-- C3: `Post::verify` returns `true` exactly when the buffer has at least
96 bytes, its first 32 bytes parse as a public key, the next 64 bytes parse
as a signature, and the detached verification of the remainder succeeds; in
every other case (any parse failure included) it returns `false`.  The
sodiumoxide primitives are universally quantified parameters, so the
equivalence holds for the actual Ed25519 routines in particular. -/
theorem c3_verify_iff {PK Sig : Type} (pk_from_slice : List Nat → Option PK)
    (sig_from_bytes : List Nat → Option Sig)
    (verify_detached : Sig → List Nat → PK → Bool) (buf : List Nat) :
    Post.verify pk_from_slice sig_from_bytes verify_detached buf = true ↔
      (96 ≤ buf.length
        ∧ ∃ pk sig, pk_from_slice (buf.take 32) = some pk
          ∧ sig_from_bytes ((buf.drop 32).take 64) = some sig
          ∧ verify_detached sig (buf.drop (32 + 64)) pk = true) := by
  unfold Post.verify
  by_cases h : buf.length < 32 + 64
  · rw [if_pos h]
    constructor
    · intro hF
      exact absurd hF Bool.false_ne_true
    · rintro ⟨h96, _⟩
      omega
  · rw [if_neg h]
    cases hp : pk_from_slice (buf.take 32) with
    | none => simp [hp]
    | some pk =>
      cases hs : sig_from_bytes ((buf.drop 32).take 64) with
      | none => simp [hp, hs]
      | some sig =>
        simp only [hp, hs]
        constructor
        · intro hv
          exact ⟨by omega, pk, sig, rfl, rfl, hv⟩
        · rintro ⟨_, pk2, sig2, hpk2, hsig2, hv⟩
          cases hpk2
          cases hsig2
          exact hv

/-- C7: in the `ClientRecvVersion` state, on any two-byte (or longer)
received version, `recv_server_version` fails with
`IncompatibleServerVersion` exactly when the received major version (byte
0) differs from the local major version, and otherwise succeeds and
advances to `ClientBuildNoiseStateMachine` regardless of the minor
versions. -/
theorem c7_recv_server_version (hs : Handshake) (buf : List Nat)
    (_hstate : hs.state = .ClientRecvVersion) (hlen : 2 ≤ buf.length) :
    (hs.recv_server_version buf = .error .IncompatibleServerVersion ↔
      buf.getD 0 0 ≠ hs.base.version.major)
    ∧ (buf.getD 0 0 = hs.base.version.major →
        hs.recv_server_version buf =
          .ok ⟨hs.base, .ClientBuildNoiseStateMachine⟩) := by
  have e : Version.from_bytes buf =
      .ok (2, ⟨buf.getD 0 0, buf.getD 1 0⟩) := by
    unfold Version.from_bytes
    rw [if_pos hlen]
  unfold Handshake.recv_server_version
  simp only [e]
  by_cases h : buf.getD 0 0 = hs.base.version.major
  · have h2 : buf[0]?.getD 0 = hs.base.version.major := by simpa using h
    rw [if_neg (by simp [h2])]
    constructor
    · simp [h2]
    · intro _
      rfl
  · have h2 : ¬buf[0]?.getD 0 = hs.base.version.major := by simpa using h
    rw [if_pos (by simp [h2])]
    constructor
    · simp [h2]
    · intro hh
      exact absurd hh h

/-- C7 witness: with local version 1.0, receiving major 2 fails with
`IncompatibleServerVersion` and receiving major 1 (any minor) advances to
`ClientBuildNoiseStateMachine`. -/
theorem c7_recv_server_version_witness :
    Handshake.recv_server_version client_recv [2, 9] =
      .error .IncompatibleServerVersion
    ∧ Handshake.recv_server_version client_recv [1, 9] =
      .ok ⟨client_recv.base, .ClientBuildNoiseStateMachine⟩ :=
  ⟨(c7_recv_server_version client_recv [2, 9] rfl (by decide)).1.mpr
      (by decide),
   (c7_recv_server_version client_recv [1, 9] rfl (by decide)).2
      (by decide)⟩

/-- C8: in the `ServerRecvVersion` state, on any well-formed two-byte (or
longer) received version, `recv_client_version` always succeeds and
advances to `ServerSendVersion`, even when the received major version
differs from the local one: the mismatch arm of the Rust code only logs a
warning. -/
theorem c8_recv_client_version (hs : Handshake) (buf : List Nat)
    (_hstate : hs.state = .ServerRecvVersion) (hlen : 2 ≤ buf.length) :
    hs.recv_client_version buf = .ok ⟨hs.base, .ServerSendVersion⟩ := by
  have e : Version.from_bytes buf =
      .ok (2, ⟨buf.getD 0 0, buf.getD 1 0⟩) := by
    unfold Version.from_bytes
    rw [if_pos hlen]
  unfold Handshake.recv_client_version
  simp only [e]

/-- C8 witness: with local version 1.0, receiving the mismatching major 3
still succeeds and advances to `ServerSendVersion`. -/
theorem c8_recv_client_version_witness :
    Handshake.recv_client_version server_recv [3, 0] =
      .ok ⟨server_recv.base, .ServerSendVersion⟩ :=
  c8_recv_client_version server_recv [3, 0] rfl (by decide)

/-- C9 (amended): `Version::from_bytes` returns `(2, Version{major, minor})`
taken from bytes 0 and 1 whenever at least two bytes are provided; with
fewer than two bytes it panics (index out of range) instead of returning a
`Truncated` error. -/
theorem c9_version_from_bytes_amended (buf : List Nat) :
    (2 ≤ buf.length →
      Version.from_bytes buf = .ok (2, ⟨buf.getD 0 0, buf.getD 1 0⟩))
    ∧ (buf.length < 2 → Version.from_bytes buf = .error .Panicked) := by
  unfold Version.from_bytes
  constructor
  · intro h
    rw [if_pos h]
  · intro h
    rw [if_neg (by omega)]

/-- C9 counterexample: on the empty buffer the claim promises a `Truncated`
error, but `Version::from_bytes` indexes `buf[0]` with no length check and
panics instead. -/
theorem c9_version_from_bytes_counterexample :
    Version.from_bytes ([] : List Nat) = .error .Panicked
    ∧ HsFailure.Panicked ≠ HsFailure.Truncated := by
  decide

/-- C9 witness: the amended statement at a two-byte and a one-byte
buffer. -/
theorem c9_version_from_bytes_amended_witness :
    Version.from_bytes [3, 7] = .ok (2, ⟨3, 7⟩)
    ∧ Version.from_bytes [9] = .error .Panicked :=
  ⟨(c9_version_from_bytes_amended [3, 7]).1 (by decide),
   (c9_version_from_bytes_amended [9]).2 (by decide)⟩
